import Mathlib

/-!
Shallow embedding of the dexboost backend (src/src/db.ts, src/src/server.ts,
the index.ts entrypoint and src/transactions.ts) in Lean 4.

The SQLite tables tokens, votes and pin_orders become lists inside a DB
structure; each exported database function of db.ts becomes a pure function
DB -> DB (returning, where the source does, a success flag and the broadcast
events it emits).  External calls (the Solana balance lookup used by
verifyPayment, and the dexscreener detail fetch used by updateTokenPin) are
modelled by an Env record supplying their responses.  SQL REAL columns are
modelled by Rat, INTEGER columns by Int (nullable ones by Option Int),
JavaScript timestamps (Date.now()) by an explicit now : Int argument.
-/

namespace Dexboost

/-- The status column of the pin_orders table (db.ts updateOrderStatus). -/
inductive OrderStatus
  | pending
  | paid
  | expired
  | completed
  | refund_needed
deriving DecidableEq, Repr

/-- One entry of the JSON links array stored on a token row.  The feed
delivers objects with optional label and type and a url; the link-derivation
code of db.ts/hunter.ts produces objects with a type and a url. -/
structure Link where
  linkType : Option String
  url : Option String
  label : Option String
deriving DecidableEq, Repr

/-- One row of the tokens table (db.ts initializeDatabase). -/
structure Token where
  tokenName : String
  tokenAddress : String
  url : String
  chainId : String
  icon : String
  header : String
  openGraph : String
  description : String
  marketCap : Rat
  amount : Int
  totalAmount : Int
  pairsAvailable : Int
  dexPair : String
  currentPrice : Rat
  liquidity : Rat
  pairCreatedAt : Int
  tokenSymbol : String
  volume24h : Rat
  volume6h : Rat
  volume1h : Rat
  links : List Link
  boosted : Int
  dateAdded : Int
  pinnedUntil : Option Int
deriving DecidableEq, Repr

/-- The updatedDetailedTokenType record handed to upsertTokenBoost
(types.ts); it carries every column except boosted, dateAdded and
pinnedUntil, which upsertTokenBoost fills in itself. -/
structure TokenInput where
  tokenName : String
  tokenAddress : String
  url : String
  chainId : String
  icon : String
  header : String
  openGraph : String
  description : String
  marketCap : Rat
  amount : Int
  totalAmount : Int
  pairsAvailable : Int
  dexPair : String
  currentPrice : Rat
  liquidity : Rat
  pairCreatedAt : Int
  tokenSymbol : String
  volume24h : Rat
  volume6h : Rat
  volume1h : Rat
  links : List Link
deriving DecidableEq, Repr

/-- One row of the pin_orders table. -/
structure PinOrder where
  id : Nat
  tokenAddress : String
  hours : Int
  cost : Rat
  paymentAddress : String
  paymentPrivateKey : String
  status : OrderStatus
  createdAt : Int
  expiresAt : Int
  paidAt : Option Int
  userIp : String
deriving DecidableEq, Repr

/-- One row of the votes table (the autoincrement id column is omitted;
rows are identified by the UNIQUE(tokenAddress, userId) key). -/
structure Vote where
  tokenAddress : String
  userId : String
  vote : Int
  timestamp : Int
deriving DecidableEq, Repr

/-- The persistent store: the three SQLite tables plus the autoincrement
counter feeding pin_orders.id. -/
structure DB where
  tokens : List Token
  votes : List Vote
  pinOrders : List PinOrder
  nextOrderId : Nat
deriving DecidableEq, Repr

/-- The empty database produced by initializeDatabase. -/
def initDB : DB := { tokens := [], votes := [], pinOrders := [], nextOrderId := 1 }

/-- A websites/socials entry of the dexscreener pair info, with the
optional fields the source guards with optional chaining. -/
structure RawLink where
  rlType : Option String
  rlUrl : Option String
deriving DecidableEq, Repr

/-- The info object of a dexscreener pair (optional on the pair). -/
structure PairInfo where
  header : Option String
  openGraph : Option String
  description : Option String
  websites : List RawLink
  socials : List RawLink
deriving DecidableEq, Repr

/-- A dexscreener trading pair as consumed by updateTokenPin: only the
fields the source reads.  Numeric fields the source guards with a falsy
check are Option Rat (none plays the role of undefined/0-string). -/
structure Pair where
  dexId : String
  marketCap : Option Rat
  priceUsd : Option Rat
  liquidityUsd : Option Rat
  volume24h : Option Rat
  volume6h : Option Rat
  volume1h : Option Rat
  info : Option PairInfo
  baseTokenName : Option String
  baseTokenSymbol : Option String
deriving DecidableEq, Repr

/-- The external world: the Solana balance of a payment address (in SOL,
as read by transactions.ts verifyPayment) and the dexscreener token-detail
response (some pairs when the fetch succeeds and the payload has a pairs
array, none on any failure). -/
structure Env where
  balance : String → Rat
  fresh : String → Option (List Pair)

/-- config.settings.dex_to_track (config.ts). -/
def dexToTrack : String := "raydium"

/-- Broadcast event envelopes pushed over the websocket (index.ts
broadcast, server.ts wss.clients loop). -/
inductive Event
  | newToken (token : Token)
  | update (token : Token)
  | voteUpdate (tokenAddress : String) (upvotes downvotes : Nat)
  | boostUpdate (token : Token)
  | pinUpdate (tokenAddress : String)
  | pinUpdateFull (token : Option Token)
  | tokenDeleted (tokenAddress tokenName tokenSymbol : String)
deriving DecidableEq, Repr

/-- SELECT ... WHERE tokenAddress = ? (first matching row). -/
def findToken (db : DB) (a : String) : Option Token :=
  db.tokens.find? (fun t => t.tokenAddress = a)

/-- SELECT ... FROM pin_orders WHERE id = ? (first matching row). -/
def findOrder (db : DB) (i : Nat) : Option PinOrder :=
  db.pinOrders.find? (fun o => o.id = i)

/-- SELECT ... FROM votes WHERE tokenAddress = ? AND userId = ?. -/
def findVote (db : DB) (a u : String) : Option Vote :=
  db.votes.find? (fun v => v.tokenAddress = a ∧ v.userId = u)

/-! ## Token store operations (db.ts) -/

/-- Descending insertion by the boosted column, realising ORDER BY boosted
DESC of selectAllTokens. -/
def insertByBoosted (t : Token) : List Token → List Token
  | [] => [t]
  | x :: xs => if x.boosted ≤ t.boosted then t :: x :: xs else x :: insertByBoosted t xs

/-- Sort a token list by boosted descending. -/
def sortByBoostedDesc : List Token → List Token
  | [] => []
  | x :: xs => insertByBoosted x (sortByBoostedDesc xs)

/-- db.ts selectAllTokens: SELECT * FROM tokens ORDER BY boosted DESC. -/
def selectAllTokens (db : DB) : List Token := sortByBoostedDesc db.tokens

/-- The row inserted by upsertTokenBoost when no row with this address
exists: every supplied field, boosted and dateAdded set to the call time,
pinnedUntil absent from the INSERT column list (NULL). -/
def insertRow (tok : TokenInput) (now : Int) : Token :=
  { tokenName := tok.tokenName, tokenAddress := tok.tokenAddress, url := tok.url,
    chainId := tok.chainId, icon := tok.icon, header := tok.header,
    openGraph := tok.openGraph, description := tok.description,
    marketCap := tok.marketCap, amount := tok.amount, totalAmount := tok.totalAmount,
    pairsAvailable := tok.pairsAvailable, dexPair := tok.dexPair,
    currentPrice := tok.currentPrice, liquidity := tok.liquidity,
    pairCreatedAt := tok.pairCreatedAt, tokenSymbol := tok.tokenSymbol,
    volume24h := tok.volume24h, volume6h := tok.volume6h, volume1h := tok.volume1h,
    links := tok.links, boosted := now, dateAdded := now, pinnedUntil := none }

/-- The ON CONFLICT(tokenAddress) DO UPDATE SET clause of upsertTokenBoost:
every supplied field overwrites the stored row, boosted is set to the call
time, dateAdded is carried over from the existing row (COALESCE of the old
value) and pinnedUntil is not in the SET list, hence untouched. -/
def updateRow (tok : TokenInput) (now : Int) (t : Token) : Token :=
  { t with
    tokenName := tok.tokenName
    url := tok.url
    chainId := tok.chainId
    icon := tok.icon
    header := tok.header
    openGraph := tok.openGraph
    description := tok.description
    marketCap := tok.marketCap
    amount := tok.amount
    totalAmount := tok.totalAmount
    pairsAvailable := tok.pairsAvailable
    dexPair := tok.dexPair
    currentPrice := tok.currentPrice
    liquidity := tok.liquidity
    pairCreatedAt := tok.pairCreatedAt
    tokenSymbol := tok.tokenSymbol
    volume24h := tok.volume24h
    volume6h := tok.volume6h
    volume1h := tok.volume1h
    links := tok.links
    boosted := now }

/-- db.ts upsertTokenBoost: look up the existing row, insert or merge, then
re-read the row and broadcast NEW_TOKEN (no prior row) or update.  Returns
the changed flag (the statement always touches one row, so true). -/
def upsertTokenBoost (db : DB) (tok : TokenInput) (now : Int) : DB × Bool × List Event :=
  match findToken db tok.tokenAddress with
  | none =>
      let db' : DB := { db with tokens := db.tokens ++ [insertRow tok now] }
      let evs := match findToken db' tok.tokenAddress with
        | some t => [Event.newToken t]
        | none => []
      (db', true, evs)
  | some _ =>
      let tokens' := db.tokens.map (fun t =>
        if t.tokenAddress = tok.tokenAddress then updateRow tok now t else t)
      let db' : DB := { db with tokens := tokens' }
      let evs := match findToken db' tok.tokenAddress with
        | some t => [Event.update t]
        | none => []
      (db', true, evs)

/-! ## Vote store operations (db.ts, server.ts) -/

/-- db.ts getTokenVotes: COUNT of vote = 1 rows and of vote = -1 rows. -/
def getTokenVotes (db : DB) (a : String) : Nat × Nat :=
  (db.votes.countP (fun v => v.tokenAddress = a ∧ v.vote = 1),
   db.votes.countP (fun v => v.tokenAddress = a ∧ v.vote = -1))

/-- db.ts getUserVote. -/
def getUserVote (db : DB) (a u : String) : Option Int :=
  (findVote db a u).map Vote.vote

/-- db.ts upsertVote: INSERT, falling back on UPDATE of vote and timestamp
when the UNIQUE(tokenAddress, userId) constraint fires; then broadcast
VOTE_UPDATE with the fresh counts. -/
def upsertVote (db : DB) (a u : String) (vote : Int) (now : Int) : DB × Bool × List Event :=
  let newVote : Vote := { tokenAddress := a, userId := u, vote := vote, timestamp := now }
  let revote : Vote → Vote := fun v =>
    if v.tokenAddress = a ∧ v.userId = u then { v with vote := vote, timestamp := now } else v
  let db' : DB :=
    match findVote db a u with
    | none => { db with votes := db.votes ++ [newVote] }
    | some _ => { db with votes := db.votes.map revote }
  let counts := getTokenVotes db' a
  (db', true, [Event.voteUpdate a counts.1 counts.2])

/-- Outcome of the POST /api/vote handler. -/
inductive VoteResult
  | invalidParams
  | alreadyVoted
  | ok (upvotes downvotes : Nat)
deriving DecidableEq, Repr

/-- server.ts POST /api/vote: reject missing/invalid parameters, reject a
voter who already voted for the token, otherwise upsert and answer with the
re-read counts. -/
def voteHandler (db : DB) (a : String) (vote : Int) (u : String) (now : Int) :
    DB × VoteResult × List Event :=
  if a = "" ∨ (vote ≠ 1 ∧ vote ≠ -1) ∨ u = "" then (db, VoteResult.invalidParams, [])
  else
    match getUserVote db a u with
    | some _ => (db, VoteResult.alreadyVoted, [])
    | none =>
        let r := upsertVote db a u vote now
        let counts := getTokenVotes r.1 a
        (r.1, VoteResult.ok counts.1 counts.2, r.2.2)

/-! ## Pin order workflow (db.ts, transactions.ts) -/

/-- db.ts createPinOrder: a fresh row in status pending, expiring 30
minutes after creation, with a freshly generated payment keypair (the
address/secret strings are parameters here since key generation is
external randomness). -/
def createPinOrder (db : DB) (a : String) (hours : Int) (cost : Rat) (userIp : String)
    (paymentAddress paymentPrivateKey : String) (now : Int) : DB × PinOrder :=
  let o : PinOrder :=
    { id := db.nextOrderId, tokenAddress := a, hours := hours, cost := cost,
      paymentAddress := paymentAddress, paymentPrivateKey := paymentPrivateKey,
      status := OrderStatus.pending, createdAt := now, expiresAt := now + 30 * 60 * 1000,
      paidAt := none, userIp := userIp }
  ({ db with pinOrders := db.pinOrders ++ [o], nextOrderId := db.nextOrderId + 1 }, o)

/-- db.ts getPendingOrders: SELECT * FROM pin_orders WHERE status =
pending AND expiresAt > now. -/
def getPendingOrders (db : DB) (now : Int) : List PinOrder :=
  db.pinOrders.filter (fun o => o.status = OrderStatus.pending ∧ now < o.expiresAt)

/-- JavaScript paidAt or null: an absent or zero value is stored as NULL. -/
def jsOrNull : Option Int → Option Int
  | some v => if v = 0 then none else some v
  | none => none

/-- db.ts updateOrderStatus: UPDATE pin_orders SET status, paidAt WHERE id;
the paidAt column is always written (the optional argument or NULL). -/
def updateOrderStatus (db : DB) (orderId : Nat) (status : OrderStatus)
    (paidAt : Option Int) : DB :=
  let f : PinOrder → PinOrder := fun o =>
    if o.id = orderId then { o with status := status, paidAt := jsOrNull paidAt } else o
  { db with pinOrders := db.pinOrders.map f }

/-- transactions.ts verifyPayment: the observed SOL balance of the payment
address must be within the fixed absolute tolerance 0.001 of the expected
cost. -/
def verifyPayment (env : Env) (paymentAddress : String) (expectedAmount : Rat) : Bool :=
  decide (|env.balance paymentAddress - expectedAmount| < (1 : Rat) / 1000)

/-- db.ts canTokenBePinned: returns true unconditionally (unlimited pins). -/
def canTokenBePinned : Bool := true

/-! ### Link derivation used by updateTokenPin (db.ts lines 504-526) -/

/-- Whether the character list starts with the given character list. -/
def startsWithCl : List Char → List Char → Bool
  | [], _ => true
  | _ :: _, [] => false
  | a :: as, b :: bs => a = b && startsWithCl as bs

/-- Whether the second character list occurs inside the first. -/
def hasSubCl (needle : List Char) : List Char → Bool
  | [] => needle.isEmpty
  | b :: bs => startsWithCl needle (b :: bs) || hasSubCl needle bs

/-- JavaScript string.includes(needle). -/
def strIncludes (hay needle : String) : Bool := hasSubCl needle.data hay.data

/-- JavaScript string.toLowerCase(), per character. -/
def strLower (s : String) : String := s.map Char.toLower

/-- The websites part of the derived links: keep entries whose url contains
http, take at most the first, tag it as a website link. -/
def websiteLinks (websites : List RawLink) : List Link :=
  ((websites.filter (fun l => match l.rlUrl with
      | some u => strIncludes u "http"
      | none => false)).take 1).map
    (fun l => { linkType := some "website", url := l.rlUrl, label := none })

/-- The socials filter: keep entries whose lowercased type is telegram or
twitter, or whose lowercased url contains t.me or twitter.com. -/
def socialKeep (l : RawLink) : Bool :=
  let ty := strLower (l.rlType.getD "")
  let u := strLower (l.rlUrl.getD "")
  ty = "telegram" || ty = "twitter" || strIncludes u "t.me" || strIncludes u "twitter.com"

/-- The socials normalisation: lowercase the type; when it is neither
telegram nor twitter, infer it from the raw url (the t.me check first,
then the twitter.com check, the latter overriding the former). -/
def socialNormalize (l : RawLink) : Link :=
  let ty0 := strLower (l.rlType.getD "")
  let hasTme := match l.rlUrl with
    | some u => strIncludes u "t.me"
    | none => false
  let hasTwitter := match l.rlUrl with
    | some u => strIncludes u "twitter.com"
    | none => false
  let ty :=
    if ty0 ≠ "telegram" ∧ ty0 ≠ "twitter" then
      if hasTwitter then "twitter" else if hasTme then "telegram" else ty0
    else ty0
  { linkType := some ty, url := l.rlUrl, label := none }

/-- The combined newLinks array built by updateTokenPin from the pair info
(an absent info contributes empty websites and socials). -/
def newLinksOfInfo (info : Option PairInfo) : List Link :=
  let websites := (info.map PairInfo.websites).getD []
  let socials := (info.map PairInfo.socials).getD []
  websiteLinks websites ++ (socials.filter socialKeep).map socialNormalize

/-- The UPDATE tokens SET clause of updateTokenPin: refresh boosted,
increment amount and totalAmount, write the new pin expiry, and overwrite
the market/metadata fields from the fetched pair (each falsy field
defaulting as in the source). -/
def applyPinUpdate (t : Token) (now newPinnedUntil : Int) (pair : Pair) : Token :=
  { t with
    boosted := now
    amount := t.amount + 1
    totalAmount := t.totalAmount + 1
    pinnedUntil := some newPinnedUntil
    marketCap := pair.marketCap.getD 0
    currentPrice := pair.priceUsd.getD 0
    liquidity := pair.liquidityUsd.getD 0
    volume24h := pair.volume24h.getD 0
    volume6h := pair.volume6h.getD 0
    volume1h := pair.volume1h.getD 0
    links := newLinksOfInfo pair.info
    header := (pair.info.bind PairInfo.header).getD ""
    openGraph := (pair.info.bind PairInfo.openGraph).getD ""
    description := (pair.info.bind PairInfo.description).getD ""
    tokenName := pair.baseTokenName.getD t.tokenAddress
    tokenSymbol := pair.baseTokenSymbol.getD "N/A" }

/-- db.ts updateTokenPin: read the stored pinnedUntil (0 when the row or
the value is missing), extend it from max(now, current), fetch fresh pair
data (failure returns false with no write), find the tracked DEX pair
(failure returns false), then update the row and broadcast BOOST_UPDATE
with the re-read row.  Returns true even when no row matched the UPDATE. -/
def updateTokenPin (env : Env) (db : DB) (tokenAddress : String) (hours : Int)
    (now : Int) : DB × Bool × List Event :=
  let currentPinnedUntil : Int :=
    match findToken db tokenAddress with
    | some t => t.pinnedUntil.getD 0
    | none => 0
  let baseTime := if currentPinnedUntil > now then currentPinnedUntil else now
  let newPinnedUntil := baseTime + hours * 60 * 60 * 1000
  match env.fresh tokenAddress with
  | none => (db, false, [])
  | some pairs =>
    match pairs.find? (fun p => p.dexId = dexToTrack) with
    | none => (db, false, [])
    | some pair =>
      let tokens' := db.tokens.map (fun t =>
        if t.tokenAddress = tokenAddress then applyPinUpdate t now newPinnedUntil pair else t)
      let db' : DB := { db with tokens := tokens' }
      let evs := match findToken db' tokenAddress with
        | some t => [Event.boostUpdate t]
        | none => []
      (db', true, evs)

/-- The WHERE clause of checkAndExpirePins: a paid order whose pin window
(paidAt + hours in milliseconds) has elapsed; a NULL paidAt never matches
(SQL three-valued comparison). -/
def paidWindowOver (o : PinOrder) (now : Int) : Bool :=
  decide (o.status = OrderStatus.paid) &&
    (match o.paidAt with
     | some p => decide (p + o.hours * 3600 * 1000 < now)
     | none => false)

/-- db.ts checkAndExpirePins: UPDATE pin_orders SET status = expired WHERE
status = paid AND paidAt + hours * 3600 * 1000 < now. -/
def checkAndExpirePins (db : DB) (now : Int) : DB :=
  let f : PinOrder → PinOrder := fun o =>
    if paidWindowOver o now then { o with status := OrderStatus.expired } else o
  { db with pinOrders := db.pinOrders.map f }

/-! ## The two payment-poll cycles

index.ts runs processPayments every 30 seconds; server.ts runs its own
anonymous poll callback every 10 seconds.  Both iterate the orders returned
by getPendingOrders.  To make the status transitions they perform
observable, each cycle additionally returns a list of StatusChange records,
one per UPDATE of an order row: pure instrumentation, recording the state
of the row being overwritten and the values written. -/

/-- Observation of one status UPDATE performed by a poll cycle: the order
id, the status the row had when the UPDATE ran, the status written, and the
paidAt value written along with it (for the pin-expiry sweep, the paidAt
kept on the row). -/
structure StatusChange where
  orderId : Nat
  oldStatus : Option OrderStatus
  newStatus : OrderStatus
  newPaidAt : Option Int
deriving DecidableEq, Repr

/-- The status of the order row with the given id, if any. -/
def orderStatusOf (db : DB) (i : Nat) : Option OrderStatus :=
  (findOrder db i).map PinOrder.status

/-- The StatusChange records of one checkAndExpirePins sweep. -/
def expireSweepLog (db : DB) (now : Int) : List StatusChange :=
  (db.pinOrders.filter (fun o => paidWindowOver o now)).map
    (fun o => { orderId := o.id, oldStatus := some o.status,
                newStatus := OrderStatus.expired, newPaidAt := o.paidAt })

/-- The loop body of index.ts processPayments for one fetched order: an
order past its expiry is marked expired; otherwise, when verifyPayment
succeeds, the order is marked paid (with paidAt = now), the token pin is
applied, the order is marked completed (which writes paidAt = NULL), and a
PIN_UPDATE envelope carrying the token address is broadcast. -/
def processOrder (env : Env) (now : Int) (acc : DB × List Event × List StatusChange)
    (order : PinOrder) : DB × List Event × List StatusChange :=
  let db := acc.1
  let evs := acc.2.1
  let log := acc.2.2
  if order.expiresAt < now then
    (updateOrderStatus db order.id OrderStatus.expired none,
     evs,
     log ++ [{ orderId := order.id, oldStatus := orderStatusOf db order.id,
               newStatus := OrderStatus.expired, newPaidAt := none }])
  else if verifyPayment env order.paymentAddress order.cost then
    let log1 := log ++ [{ orderId := order.id, oldStatus := orderStatusOf db order.id,
                          newStatus := OrderStatus.paid, newPaidAt := jsOrNull (some now) }]
    let db1 := updateOrderStatus db order.id OrderStatus.paid (some now)
    let r2 := updateTokenPin env db1 order.tokenAddress order.hours now
    let db2 := r2.1
    let log2 := log1 ++ [{ orderId := order.id, oldStatus := orderStatusOf db2 order.id,
                           newStatus := OrderStatus.completed, newPaidAt := none }]
    let db3 := updateOrderStatus db2 order.id OrderStatus.completed none
    (db3, evs ++ r2.2.2 ++ [Event.pinUpdate order.tokenAddress], log2)
  else
    (db, evs, log)

/-- index.ts processPayments: fetch the pending orders, run the loop body
over each, then run the pin-expiry sweep. -/
def processPayments (env : Env) (db : DB) (now : Int) :
    DB × List Event × List StatusChange :=
  let pending := getPendingOrders db now
  let r := pending.foldl (processOrder env now) (db, [], [])
  (checkAndExpirePins r.1 now, r.2.1, r.2.2 ++ expireSweepLog r.1 now)

/-- The loop body of the server.ts 10-second poll callback for one fetched
order: when verifyPayment succeeds and canTokenBePinned allows it, the
order is marked paid (with paidAt = now), the token pin is applied and a
PIN_UPDATE envelope carrying the freshly listed token row is broadcast (the
order is never marked completed here); when the capacity check refuses, the
order is marked refund_needed; otherwise an order past its expiry is marked
expired. -/
def serverPollOrder (env : Env) (now : Int) (acc : DB × List Event × List StatusChange)
    (order : PinOrder) : DB × List Event × List StatusChange :=
  let db := acc.1
  let evs := acc.2.1
  let log := acc.2.2
  if verifyPayment env order.paymentAddress order.cost then
    if canTokenBePinned then
      let log1 := log ++ [{ orderId := order.id, oldStatus := orderStatusOf db order.id,
                            newStatus := OrderStatus.paid, newPaidAt := jsOrNull (some now) }]
      let db1 := updateOrderStatus db order.id OrderStatus.paid (some now)
      let r2 := updateTokenPin env db1 order.tokenAddress order.hours now
      let db2 := r2.1
      let updated := (selectAllTokens db2).find? (fun t => t.tokenAddress = order.tokenAddress)
      (db2, evs ++ r2.2.2 ++ [Event.pinUpdateFull updated], log1)
    else
      (updateOrderStatus db order.id OrderStatus.refund_needed none,
       evs,
       log ++ [{ orderId := order.id, oldStatus := orderStatusOf db order.id,
                 newStatus := OrderStatus.refund_needed, newPaidAt := none }])
  else if order.expiresAt < now then
    (updateOrderStatus db order.id OrderStatus.expired none,
     evs,
     log ++ [{ orderId := order.id, oldStatus := orderStatusOf db order.id,
               newStatus := OrderStatus.expired, newPaidAt := none }])
  else
    (db, evs, log)

/-- The server.ts 10-second poll cycle. -/
def serverPollCycle (env : Env) (db : DB) (now : Int) :
    DB × List Event × List StatusChange :=
  (getPendingOrders db now).foldl (serverPollOrder env now) (db, [], [])

/-- db.ts deleteOldTokens: purge tokens not boosted in the trailing 24
hours, cascade-delete votes whose token is gone, broadcast TOKEN_DELETED
per purged token. -/
def deleteOldTokens (db : DB) (now : Int) : DB × List Event :=
  let cutoff := now - 24 * 60 * 60 * 1000
  let toDelete := db.tokens.filter (fun t => t.boosted < cutoff)
  let tokens' := db.tokens.filter (fun t => ¬ t.boosted < cutoff)
  let votes' := db.votes.filter (fun v =>
    (tokens'.find? (fun t => t.tokenAddress = v.tokenAddress)).isSome)
  ({ db with tokens := tokens', votes := votes' },
   toDelete.map (fun t => Event.tokenDeleted t.tokenAddress t.tokenName t.tokenSymbol))

/-! ## The system step relation

One step is one complete run of any state-mutating operation the backend
exposes: a reconciliation upsert, a vote request, a pin-order creation,
either payment-poll cycle, the pin-expiry sweep, a direct pin application,
or the retention purge. -/

/-- One atomic state change of the system. -/
inductive Step : DB → DB → Prop
  | upsertToken (db : DB) (tok : TokenInput) (now : Int) :
      Step db (upsertTokenBoost db tok now).1
  | vote (db : DB) (a : String) (v : Int) (u : String) (now : Int) :
      Step db (voteHandler db a v u now).1
  | createOrder (db : DB) (a : String) (hours : Int) (cost : Rat)
      (userIp addr key : String) (now : Int) :
      Step db (createPinOrder db a hours cost userIp addr key now).1
  | poll (env : Env) (db : DB) (now : Int) :
      Step db (processPayments env db now).1
  | serverPoll (env : Env) (db : DB) (now : Int) :
      Step db (serverPollCycle env db now).1
  | expireSweep (db : DB) (now : Int) :
      Step db (checkAndExpirePins db now)
  | pinToken (env : Env) (db : DB) (a : String) (hours : Int) (now : Int) :
      Step db (updateTokenPin env db a hours now).1
  | purge (db : DB) (now : Int) :
      Step db (deleteOldTokens db now).1

/-- No order row carries the refund_needed status. -/
def noRefundNeeded (db : DB) : Prop :=
  ∀ o ∈ db.pinOrders, o.status ≠ OrderStatus.refund_needed

/-- A status no operation of the poller ever leaves: completed, expired or
refund_needed (spec section 3, pin order record). -/
def terminalStatus (s : OrderStatus) : Prop :=
  s = OrderStatus.completed ∨ s = OrderStatus.expired ∨ s = OrderStatus.refund_needed

/-- The status transitions the payment pollers actually perform on an order
row: pending to paid, pending to expired, paid to completed, and paid to
expired (the pin-expiry sweep). -/
def allowedChange : Option OrderStatus → OrderStatus → Prop
  | some OrderStatus.pending, OrderStatus.paid => True
  | some OrderStatus.pending, OrderStatus.expired => True
  | some OrderStatus.paid, OrderStatus.completed => True
  | some OrderStatus.paid, OrderStatus.expired => True
  | _, _ => False

/-- Whether a broadcast envelope is of kind PIN_UPDATE (either poller). -/
def isPinUpdateEvent : Event → Bool
  | Event.pinUpdate _ => true
  | Event.pinUpdateFull _ => true
  | _ => false

/-- At most one vote row per (tokenAddress, userId) pair. -/
def atMostOneVote (db : DB) : Prop :=
  ∀ a u, db.votes.countP (fun v => v.tokenAddress = a ∧ v.userId = u) ≤ 1

/-- A token list sorted by the boosted column, descending. -/
def boostedDescSorted (l : List Token) : Prop :=
  l.Pairwise (fun x y => y.boosted ≤ x.boosted)

/-- Whether a token is currently pinned (pinnedUntil in the future), the
pin-status test the display layer uses. -/
def pinnedActive (t : Token) (now : Int) : Bool :=
  match t.pinnedUntil with
  | some p => decide (now < p)
  | none => false

/-- Modelled from the spec: GET /api/tokens is claimed to return the list
sorted by pin status first (every currently pinned token before every
unpinned one); this predicate states that spec-side ordering. -/
def pinnedFirstSorted (now : Int) (l : List Token) : Prop :=
  l.Pairwise (fun x y => pinnedActive y now = true → pinnedActive x now = true)

/-! ### Concrete sample data used by witnesses and counterexamples -/

/-- A token row with neutral field values; samples adjust what they need. -/
def baseToken : Token :=
  { tokenName := "tok", tokenAddress := "addrpump", url := "", chainId := "solana",
    icon := "", header := "", openGraph := "", description := "", marketCap := 0,
    amount := 0, totalAmount := 0, pairsAvailable := 1, dexPair := "raydium",
    currentPrice := 0, liquidity := 0, pairCreatedAt := 0, tokenSymbol := "TOK",
    volume24h := 0, volume6h := 0, volume1h := 0, links := [], boosted := 0,
    dateAdded := 0, pinnedUntil := none }

/-- A feed-derived upsert input with neutral field values. -/
def baseInput : TokenInput :=
  { tokenName := "tok", tokenAddress := "addrpump", url := "", chainId := "solana",
    icon := "", header := "", openGraph := "", description := "", marketCap := 0,
    amount := 0, totalAmount := 0, pairsAvailable := 1, dexPair := "raydium",
    currentPrice := 0, liquidity := 0, pairCreatedAt := 0, tokenSymbol := "TOK",
    volume24h := 0, volume6h := 0, volume1h := 0, links := [] }

/-- A raydium pair with neutral field values. -/
def basePair : Pair :=
  { dexId := "raydium", marketCap := some 50000, priceUsd := none,
    liquidityUsd := none, volume24h := none, volume6h := none, volume1h := none,
    info := none, baseTokenName := none, baseTokenSymbol := none }

/-- A pin order with neutral field values. -/
def baseOrder : PinOrder :=
  { id := 1, tokenAddress := "addrpump", hours := 1, cost := 1 / 2,
    paymentAddress := "payaddr", paymentPrivateKey := "secret",
    status := OrderStatus.pending, createdAt := 10, expiresAt := 1800010,
    paidAt := none, userIp := "1.2.3.4" }

/-- An environment whose balance check never succeeds and whose detail
fetch always fails. -/
def emptyEnv : Env := { balance := fun _ => 0, fresh := fun _ => none }

/-- An environment reporting the spec scenario balance 0.5005 SOL on every
address and serving one raydium pair for every token. -/
def paidEnv : Env :=
  { balance := fun _ => 5005 / 10000, fresh := fun _ => some [basePair] }

/-- An environment reporting the scenario balance 0.5005 SOL on every
address but whose detail fetch always fails. -/
def failEnv : Env :=
  { balance := fun _ => 5005 / 10000, fresh := fun _ => none }

/-- A token already pinned until timestamp 100. -/
def tokC3 : Token := { baseToken with pinnedUntil := some 100 }

/-- A store holding only tokC3. -/
def dbC3 : DB := { initDB with tokens := [tokC3] }

/-- A token with lifetime boost count 105. -/
def tokC6 : Token := { baseToken with totalAmount := 105 }

/-- A store holding only tokC6. -/
def dbC6 : DB := { initDB with tokens := [tokC6] }

/-- A reconciliation input reporting a smaller lifetime boost count, 50. -/
def inputC6 : TokenInput := { baseInput with totalAmount := 50 }

/-- A reconciliation input reporting a larger lifetime boost count, 200. -/
def inputC6Up : TokenInput := { baseInput with totalAmount := 200 }

/-- An order already paid at time 0 for a 1-hour pin. -/
def orderC4 : PinOrder := { baseOrder with status := OrderStatus.paid, paidAt := some 2 }

/-- A store holding only orderC4. -/
def dbC4 : DB := { initDB with pinOrders := [orderC4], nextOrderId := 2 }

/-- A pending order whose payment window expired at time 5. -/
def orderC5 : PinOrder := { baseOrder with expiresAt := 5 }

/-- A store holding only orderC5. -/
def dbC5 : DB := { initDB with pinOrders := [orderC5], nextOrderId := 2 }

/-- A store with one recorded vote. -/
def dbC8 : DB := { initDB with votes :=
  [{ tokenAddress := "addrpump", userId := "user1", vote := 1, timestamp := 5 }] }

/-- A pinned token listed together with a later-boosted unpinned token. -/
def tokC9Pinned : Token :=
  { baseToken with tokenAddress := "apump", pinnedUntil := some 1000, boosted := 1 }

/-- The unpinned, more recently boosted companion of tokC9Pinned. -/
def tokC9Plain : Token := { baseToken with tokenAddress := "bpump", boosted := 2 }

/-- A store holding tokC9Pinned and tokC9Plain. -/
def dbC9 : DB := { initDB with tokens := [tokC9Pinned, tokC9Plain] }

/-- A store with one token and one pending order on it (spec scenario). -/
def dbC1 : DB := { initDB with tokens := [baseToken], pinOrders := [baseOrder], nextOrderId := 2 }

/-- A store with one token and one completed order on it. -/
def dbC2 : DB :=
  { initDB with
    tokens := [baseToken]
    pinOrders := [{ baseOrder with status := OrderStatus.completed }]
    nextOrderId := 2 }

/-! ## Helper lemmas -/

theorem find_pred_map {α : Type} (l : List α) (f : α → α) (p : α → Bool)
    (h : ∀ x, p (f x) = p x) : (l.map f).find? p = (l.find? p).map f := by
  rw [List.find?_map]
  have hpf : p ∘ f = p := by
    funext x
    exact h x
  rw [hpf]

theorem applyPinUpdate_tokenAddress (t : Token) (now n : Int) (pair : Pair) :
    (applyPinUpdate t now n pair).tokenAddress = t.tokenAddress := rfl

theorem updateRow_tokenAddress (tok : TokenInput) (now : Int) (t : Token) :
    (updateRow tok now t).tokenAddress = t.tokenAddress := rfl

theorem updateOrderStatus_tokens (db : DB) (j : Nat) (st : OrderStatus) (pa : Option Int) :
    (updateOrderStatus db j st pa).tokens = db.tokens := rfl

theorem checkAndExpirePins_tokens (db : DB) (now : Int) :
    (checkAndExpirePins db now).tokens = db.tokens := rfl

theorem findToken_eq_of_tokens_eq (db db' : DB) (h : db'.tokens = db.tokens) (a : String) :
    findToken db' a = findToken db a := by
  unfold findToken
  rw [h]

theorem findOrder_eq_of_pinOrders_eq (db db' : DB) (h : db'.pinOrders = db.pinOrders)
    (i : Nat) : findOrder db' i = findOrder db i := by
  unfold findOrder
  rw [h]

theorem updateTokenPin_pinOrders (env : Env) (db : DB) (a : String) (hours now : Int) :
    (updateTokenPin env db a hours now).1.pinOrders = db.pinOrders := by
  unfold updateTokenPin
  cases env.fresh a with
  | none => rfl
  | some pairs =>
      cases hp : pairs.find? (fun p => p.dexId = dexToTrack) with
      | none => simp [hp]
      | some pair => simp [hp]

theorem updateTokenPin_nextOrderId (env : Env) (db : DB) (a : String) (hours now : Int) :
    (updateTokenPin env db a hours now).1.nextOrderId = db.nextOrderId := by
  unfold updateTokenPin
  cases env.fresh a with
  | none => rfl
  | some pairs =>
      cases hp : pairs.find? (fun p => p.dexId = dexToTrack) with
      | none => simp [hp]
      | some pair => simp [hp]

theorem updateOrderStatus_pinOrders (db : DB) (i : Nat) (st : OrderStatus)
    (pa : Option Int) :
    (updateOrderStatus db i st pa).pinOrders
      = db.pinOrders.map (fun x =>
          if x.id = i then { x with status := st, paidAt := jsOrNull pa } else x) := rfl

theorem findOrder_updateOrderStatus (db : DB) (i j : Nat) (st : OrderStatus)
    (pa : Option Int) :
    findOrder (updateOrderStatus db j st pa) i
      = (findOrder db i).map (fun o =>
          if o.id = j then { o with status := st, paidAt := jsOrNull pa } else o) := by
  unfold findOrder updateOrderStatus
  apply find_pred_map
  intro o
  by_cases h : o.id = j <;> simp [h]

theorem findOrder_updateOrderStatus_self (db : DB) (i : Nat) (st : OrderStatus)
    (pa : Option Int) :
    findOrder (updateOrderStatus db i st pa) i
      = (findOrder db i).map (fun o => { o with status := st, paidAt := jsOrNull pa }) := by
  rw [findOrder_updateOrderStatus]
  cases h : findOrder db i with
  | none => rfl
  | some o =>
      have ho : o.id = i := by
        have := List.find?_some h
        simpa using this
      simp [ho]

theorem findOrder_updateOrderStatus_ne (db : DB) (i j : Nat) (st : OrderStatus)
    (pa : Option Int) (hne : ¬ i = j) :
    findOrder (updateOrderStatus db j st pa) i = findOrder db i := by
  rw [findOrder_updateOrderStatus]
  cases h : findOrder db i with
  | none => rfl
  | some o =>
      have ho : o.id = i := by
        have := List.find?_some h
        simpa using this
      have : ¬ o.id = j := by
        rw [ho]
        exact hne
      simp [this]

theorem findOrder_checkAndExpirePins (db : DB) (now : Int) (i : Nat) :
    findOrder (checkAndExpirePins db now) i
      = (findOrder db i).map (fun o =>
          if paidWindowOver o now then { o with status := OrderStatus.expired } else o) := by
  unfold findOrder checkAndExpirePins
  apply find_pred_map
  intro o
  by_cases h : paidWindowOver o now <;> simp [h]

theorem mem_getPendingOrders (db : DB) (now : Int) (o : PinOrder) :
    o ∈ getPendingOrders db now
      ↔ o ∈ db.pinOrders ∧ o.status = OrderStatus.pending ∧ now < o.expiresAt := by
  simp [getPendingOrders, List.mem_filter]

theorem find_id_of_nodup (l : List PinOrder) (o : PinOrder) (h : o ∈ l)
    (hnd : (l.map PinOrder.id).Nodup) : l.find? (fun x => x.id = o.id) = some o := by
  induction l with
  | nil => cases h
  | cons x xs ih =>
      rcases List.mem_cons.mp h with rfl | hxs
      · simp
      · have hx : ¬ x.id = o.id := by
          intro hid
          have : o.id ∈ xs.map PinOrder.id := List.mem_map_of_mem PinOrder.id hxs
          rw [← hid] at this
          exact (List.nodup_cons.mp hnd).1 this
        have hnd' : (xs.map PinOrder.id).Nodup := (List.nodup_cons.mp hnd).2
        simp [hx, ih hxs hnd']

theorem findOrder_of_mem (db : DB) (o : PinOrder) (h : o ∈ db.pinOrders)
    (hnd : (db.pinOrders.map PinOrder.id).Nodup) : findOrder db o.id = some o :=
  find_id_of_nodup db.pinOrders o h hnd

theorem getPendingOrders_ids_nodup (db : DB) (now : Int)
    (hnd : (db.pinOrders.map PinOrder.id).Nodup) :
    ((getPendingOrders db now).map PinOrder.id).Nodup :=
  hnd.sublist ((List.filter_sublist _).map PinOrder.id)

theorem processOrder_findOrder_ne (env : Env) (now : Int)
    (acc : DB × List Event × List StatusChange) (order : PinOrder) (i : Nat)
    (hne : ¬ i = order.id) :
    findOrder (processOrder env now acc order).1 i = findOrder acc.1 i := by
  unfold processOrder
  by_cases h1 : order.expiresAt < now
  · simp only [if_pos h1]
    exact findOrder_updateOrderStatus_ne _ _ _ _ _ hne
  · simp only [if_neg h1]
    by_cases h2 : verifyPayment env order.paymentAddress order.cost = true
    · simp only [h2, if_true]
      rw [findOrder_updateOrderStatus_ne _ _ _ _ _ hne]
      rw [findOrder_eq_of_pinOrders_eq _ _ (updateTokenPin_pinOrders _ _ _ _ _)]
      exact findOrder_updateOrderStatus_ne _ _ _ _ _ hne
    · simp only [h2, if_false]
      rfl

theorem serverPollOrder_findOrder_ne (env : Env) (now : Int)
    (acc : DB × List Event × List StatusChange) (order : PinOrder) (i : Nat)
    (hne : ¬ i = order.id) :
    findOrder (serverPollOrder env now acc order).1 i = findOrder acc.1 i := by
  unfold serverPollOrder
  by_cases h2 : verifyPayment env order.paymentAddress order.cost = true
  · simp only [h2, if_true, canTokenBePinned]
    rw [findOrder_eq_of_pinOrders_eq _ _ (updateTokenPin_pinOrders _ _ _ _ _)]
    exact findOrder_updateOrderStatus_ne _ _ _ _ _ hne
  · simp only [h2, if_false]
    by_cases h1 : order.expiresAt < now
    · simp only [if_pos h1]
      exact findOrder_updateOrderStatus_ne _ _ _ _ _ hne
    · simp only [if_neg h1]
      rfl

theorem processOrder_log_allowed (env : Env) (now : Int)
    (acc : DB × List Event × List StatusChange) (order : PinOrder)
    (hord : findOrder acc.1 order.id = some order)
    (hp : order.status = OrderStatus.pending)
    (hacc : ∀ c ∈ acc.2.2, allowedChange c.oldStatus c.newStatus) :
    ∀ c ∈ (processOrder env now acc order).2.2, allowedChange c.oldStatus c.newStatus := by
  have hold : orderStatusOf acc.1 order.id = some OrderStatus.pending := by
    unfold orderStatusOf
    rw [hord]
    simp [hp]
  unfold processOrder
  by_cases h1 : order.expiresAt < now
  · simp only [if_pos h1]
    intro c hc
    rcases List.mem_append.mp hc with h | h
    · exact hacc c h
    · rcases List.mem_singleton.mp h with rfl
      simp only [hold]
      trivial
  · simp only [if_neg h1]
    by_cases h2 : verifyPayment env order.paymentAddress order.cost = true
    · simp only [h2, if_true]
      have hmid : orderStatusOf
          (updateTokenPin env (updateOrderStatus acc.1 order.id OrderStatus.paid (some now))
            order.tokenAddress order.hours now).1 order.id = some OrderStatus.paid := by
        unfold orderStatusOf
        rw [findOrder_eq_of_pinOrders_eq _ _ (updateTokenPin_pinOrders _ _ _ _ _)]
        rw [findOrder_updateOrderStatus_self, hord]
        rfl
      intro c hc
      rcases List.mem_append.mp hc with h | h
      · rcases List.mem_append.mp h with h' | h'
        · exact hacc c h'
        · rcases List.mem_singleton.mp h' with rfl
          simp only [hold]
          trivial
      · rcases List.mem_singleton.mp h with rfl
        simp only [hmid]
        trivial
    · simp only [h2, if_false]
      exact hacc

theorem serverPollOrder_log_allowed (env : Env) (now : Int)
    (acc : DB × List Event × List StatusChange) (order : PinOrder)
    (hord : findOrder acc.1 order.id = some order)
    (hp : order.status = OrderStatus.pending)
    (hacc : ∀ c ∈ acc.2.2, allowedChange c.oldStatus c.newStatus) :
    ∀ c ∈ (serverPollOrder env now acc order).2.2, allowedChange c.oldStatus c.newStatus := by
  have hold : orderStatusOf acc.1 order.id = some OrderStatus.pending := by
    unfold orderStatusOf
    rw [hord]
    simp [hp]
  unfold serverPollOrder
  by_cases h2 : verifyPayment env order.paymentAddress order.cost = true
  · simp only [h2, if_true, canTokenBePinned]
    intro c hc
    rcases List.mem_append.mp hc with h | h
    · exact hacc c h
    · rcases List.mem_singleton.mp h with rfl
      simp only [hold]
      trivial
  · simp only [h2, if_false]
    by_cases h1 : order.expiresAt < now
    · simp only [if_pos h1]
      intro c hc
      rcases List.mem_append.mp hc with h | h
      · exact hacc c h
      · rcases List.mem_singleton.mp h with rfl
        simp only [hold]
        trivial
    · simp only [if_neg h1]
      exact hacc

theorem foldPoll_main
    (step : (DB × List Event × List StatusChange) → PinOrder → DB × List Event × List StatusChange)
    (hstep_ne : ∀ acc order i, ¬ i = order.id →
      findOrder (step acc order).1 i = findOrder acc.1 i)
    (hstep_log : ∀ acc order, findOrder acc.1 order.id = some order →
      order.status = OrderStatus.pending →
      (∀ c ∈ acc.2.2, allowedChange c.oldStatus c.newStatus) →
      ∀ c ∈ (step acc order).2.2, allowedChange c.oldStatus c.newStatus) :
    ∀ (orders : List PinOrder) (acc : DB × List Event × List StatusChange),
      (∀ o ∈ orders, o.status = OrderStatus.pending ∧ findOrder acc.1 o.id = some o) →
      ((orders.map PinOrder.id).Nodup) →
      (∀ c ∈ acc.2.2, allowedChange c.oldStatus c.newStatus) →
      (∀ c ∈ (orders.foldl step acc).2.2, allowedChange c.oldStatus c.newStatus)
      ∧ (∀ i, i ∉ orders.map PinOrder.id →
          findOrder (orders.foldl step acc).1 i = findOrder acc.1 i) := by
  intro orders
  induction orders with
  | nil =>
      intro acc _ _ h3
      exact ⟨h3, fun i _ => rfl⟩
  | cons o os ih =>
      intro acc hmem hnd hacc
      have hnd2 : o.id ∉ os.map PinOrder.id ∧ (os.map PinOrder.id).Nodup := by
        rw [List.map_cons] at hnd
        exact List.nodup_cons.mp hnd
      have ho := hmem o (List.mem_cons_self o os)
      have hstep := hstep_log acc o ho.2 ho.1 hacc
      have hmem' : ∀ p ∈ os, p.status = OrderStatus.pending ∧
          findOrder (step acc o).1 p.id = some p := by
        intro p hp
        have hpo := hmem p (List.mem_cons_of_mem o hp)
        have hid : ¬ p.id = o.id := by
          intro h
          apply hnd2.1
          rw [← h]
          exact List.mem_map_of_mem PinOrder.id hp
        refine ⟨hpo.1, ?_⟩
        rw [hstep_ne acc o p.id hid]
        exact hpo.2
      have hrec := ih (step acc o) hmem' hnd2.2 hstep
      rw [List.foldl_cons]
      refine ⟨hrec.1, ?_⟩
      intro i hi
      have hi' : ¬ (i = o.id ∨ i ∈ os.map PinOrder.id) := by simpa using hi
      rw [hrec.2 i (fun h => hi' (Or.inr h))]
      exact hstep_ne acc o i (fun h => hi' (Or.inl h))

theorem paidWindowOver_eq_false_of_ne (o : PinOrder) (now : Int)
    (h : o.status ≠ OrderStatus.paid) : paidWindowOver o now = false := by
  unfold paidWindowOver
  simp [h]

theorem expireSweepLog_allowed (db : DB) (now : Int) :
    ∀ c ∈ expireSweepLog db now, allowedChange c.oldStatus c.newStatus := by
  intro c hc
  unfold expireSweepLog at hc
  rcases List.mem_map.mp hc with ⟨o, ho, rfl⟩
  have hf := (List.mem_filter.mp ho).2
  have hst : o.status = OrderStatus.paid := by
    unfold paidWindowOver at hf
    have := (Bool.and_eq_true _ _).mp hf
    exact of_decide_eq_true this.1
  simp only [hst]
  trivial

theorem pendingOrders_mem_spec (db : DB) (now : Int)
    (hnd : (db.pinOrders.map PinOrder.id).Nodup) :
    ∀ o ∈ getPendingOrders db now,
      o.status = OrderStatus.pending ∧ findOrder db o.id = some o := by
  intro o ho
  have h := (mem_getPendingOrders db now o).mp ho
  exact ⟨h.2.1, findOrder_of_mem db o h.1 hnd⟩

theorem processPayments_changes_allowed (env : Env) (db : DB) (now : Int)
    (hnd : (db.pinOrders.map PinOrder.id).Nodup) :
    ∀ c ∈ (processPayments env db now).2.2, allowedChange c.oldStatus c.newStatus := by
  have hfold := foldPoll_main (processOrder env now)
    (fun acc order i h => processOrder_findOrder_ne env now acc order i h)
    (fun acc order h1 h2 h3 => processOrder_log_allowed env now acc order h1 h2 h3)
    (getPendingOrders db now) (db, [], [])
    (pendingOrders_mem_spec db now hnd)
    (getPendingOrders_ids_nodup db now hnd)
    (fun c hc => absurd hc (List.not_mem_nil c))
  intro c hc
  simp only [processPayments] at hc
  rcases List.mem_append.mp hc with h | h
  · exact hfold.1 c h
  · exact expireSweepLog_allowed _ now c h

theorem serverPollCycle_changes_allowed (env : Env) (db : DB) (now : Int)
    (hnd : (db.pinOrders.map PinOrder.id).Nodup) :
    ∀ c ∈ (serverPollCycle env db now).2.2, allowedChange c.oldStatus c.newStatus := by
  have hfold := foldPoll_main (serverPollOrder env now)
    (fun acc order i h => serverPollOrder_findOrder_ne env now acc order i h)
    (fun acc order h1 h2 h3 => serverPollOrder_log_allowed env now acc order h1 h2 h3)
    (getPendingOrders db now) (db, [], [])
    (pendingOrders_mem_spec db now hnd)
    (getPendingOrders_ids_nodup db now hnd)
    (fun c hc => absurd hc (List.not_mem_nil c))
  intro c hc
  exact hfold.1 c hc

theorem notin_pending_ids (db : DB) (now : Int)
    (hnd : (db.pinOrders.map PinOrder.id).Nodup) (o : PinOrder) (ho : o ∈ db.pinOrders)
    (hskip : o.status ≠ OrderStatus.pending ∨ ¬ now < o.expiresAt) :
    o.id ∉ (getPendingOrders db now).map PinOrder.id := by
  intro h
  rcases List.mem_map.mp h with ⟨p, hp, hpid⟩
  have hmem := (mem_getPendingOrders db now p).mp hp
  have h1 := findOrder_of_mem db p hmem.1 hnd
  have h2 := findOrder_of_mem db o ho hnd
  rw [hpid, h2] at h1
  injection h1 with h3
  rw [h3] at hskip
  rcases hskip with h4 | h4
  · exact h4 hmem.2.1
  · exact h4 hmem.2.2

theorem processPayments_preserves_order (env : Env) (db : DB) (now : Int)
    (hnd : (db.pinOrders.map PinOrder.id).Nodup) (o : PinOrder) (ho : o ∈ db.pinOrders)
    (hskip : o.status ≠ OrderStatus.pending ∨ ¬ now < o.expiresAt)
    (hnpaid : o.status ≠ OrderStatus.paid) :
    findOrder (processPayments env db now).1 o.id = some o := by
  have hfold := foldPoll_main (processOrder env now)
    (fun acc order i h => processOrder_findOrder_ne env now acc order i h)
    (fun acc order h1 h2 h3 => processOrder_log_allowed env now acc order h1 h2 h3)
    (getPendingOrders db now) (db, [], [])
    (pendingOrders_mem_spec db now hnd)
    (getPendingOrders_ids_nodup db now hnd)
    (fun c hc => absurd hc (List.not_mem_nil c))
  have hid := notin_pending_ids db now hnd o ho hskip
  have hdb := findOrder_of_mem db o ho hnd
  simp only [processPayments]
  rw [findOrder_checkAndExpirePins]
  rw [hfold.2 o.id hid]
  simp only []
  rw [hdb]
  simp [paidWindowOver_eq_false_of_ne o now hnpaid]

theorem serverPollCycle_preserves_order (env : Env) (db : DB) (now : Int)
    (hnd : (db.pinOrders.map PinOrder.id).Nodup) (o : PinOrder) (ho : o ∈ db.pinOrders)
    (hskip : o.status ≠ OrderStatus.pending ∨ ¬ now < o.expiresAt) :
    findOrder (serverPollCycle env db now).1 o.id = some o := by
  have hfold := foldPoll_main (serverPollOrder env now)
    (fun acc order i h => serverPollOrder_findOrder_ne env now acc order i h)
    (fun acc order h1 h2 h3 => serverPollOrder_log_allowed env now acc order h1 h2 h3)
    (getPendingOrders db now) (db, [], [])
    (pendingOrders_mem_spec db now hnd)
    (getPendingOrders_ids_nodup db now hnd)
    (fun c hc => absurd hc (List.not_mem_nil c))
  have hid := notin_pending_ids db now hnd o ho hskip
  rw [show (serverPollCycle env db now).1
      = ((getPendingOrders db now).foldl (serverPollOrder env now) (db, [], [])).1 from rfl]
  rw [hfold.2 o.id hid]
  exact findOrder_of_mem db o ho hnd

theorem findToken_mapPin (db : DB) (a : String) (now npu : Int) (pair : Pair) (t : Token)
    (ht : findToken db a = some t) :
    (db.tokens.map (fun x =>
        if x.tokenAddress = a then applyPinUpdate x now npu pair else x)).find?
        (fun x => x.tokenAddress = a)
      = some (applyPinUpdate t now npu pair) := by
  rw [find_pred_map]
  · unfold findToken at ht
    rw [ht]
    have hta : t.tokenAddress = a := by
      have := List.find?_some ht
      simpa using this
    simp [hta]
  · intro x
    by_cases h : x.tokenAddress = a <;> simp [h, applyPinUpdate_tokenAddress]

theorem updateTokenPin_spec (env : Env) (db : DB) (a : String) (hours now : Int)
    (t : Token) (pairs : List Pair) (pair : Pair)
    (ht : findToken db a = some t)
    (hf : env.fresh a = some pairs)
    (hp : pairs.find? (fun p => p.dexId = dexToTrack) = some pair) :
    (updateTokenPin env db a hours now).2.1 = true ∧
    findToken (updateTokenPin env db a hours now).1 a
      = some (applyPinUpdate t now
          ((if t.pinnedUntil.getD 0 > now then t.pinnedUntil.getD 0 else now)
            + hours * 60 * 60 * 1000) pair) := by
  unfold updateTokenPin
  simp only [hf, hp, ht]
  refine ⟨trivial, ?_⟩
  exact findToken_mapPin db a now _ pair t ht

theorem findToken_updateTokenPin_ne (env : Env) (db : DB) (a : String)
    (hours now : Int) (b : String) (hne : ¬ b = a) :
    findToken (updateTokenPin env db a hours now).1 b = findToken db b := by
  unfold updateTokenPin
  cases hf : env.fresh a with
  | none => rfl
  | some pairs =>
    cases hp : pairs.find? (fun p => p.dexId = dexToTrack) with
    | none => simp [hp]
    | some pair =>
        simp only [hp]
        show findToken { db with tokens := db.tokens.map _ } b = findToken db b
        unfold findToken
        rw [find_pred_map]
        · cases hb : db.tokens.find? (fun x => x.tokenAddress = b) with
          | none => rfl
          | some u =>
              have hub : u.tokenAddress = b := by
                have := List.find?_some hb
                simpa using this
              have hua : ¬ u.tokenAddress = a := by
                rw [hub]
                exact hne
              simp [hua]
        · intro x
          by_cases h : x.tokenAddress = a <;> simp [h, applyPinUpdate_tokenAddress]

theorem updateTokenPin_true_inv (env : Env) (db : DB) (a : String) (hours now : Int)
    (h : (updateTokenPin env db a hours now).2.1 = true) :
    ∃ pairs pair, env.fresh a = some pairs ∧
      pairs.find? (fun p => p.dexId = dexToTrack) = some pair := by
  unfold updateTokenPin at h
  cases hf : env.fresh a with
  | none =>
      rw [hf] at h
      simp at h
  | some pairs =>
      rw [hf] at h
      cases hp : pairs.find? (fun p => p.dexId = dexToTrack) with
      | none => simp [hp] at h
      | some pair => exact ⟨pairs, pair, rfl, hp⟩

theorem updateTokenPin_no_pinUpdate (env : Env) (db : DB) (a : String) (hours now : Int) :
    ((updateTokenPin env db a hours now).2.2).countP isPinUpdateEvent = 0 := by
  unfold updateTokenPin
  cases hf : env.fresh a with
  | none => rfl
  | some pairs =>
      cases hp : pairs.find? (fun p => p.dexId = dexToTrack) with
      | none => simp [hp]
      | some pair =>
          simp only [hp]
          show (match findToken { db with tokens := _ } a with
            | some t => [Event.boostUpdate t]
            | none => ([] : List Event)).countP isPinUpdateEvent = 0
          cases findToken { db with tokens := _ } a with
          | none => rfl
          | some t => rfl

theorem countP_map_eq {α : Type} (l : List α) (f : α → α) (p : α → Bool)
    (h : ∀ x, p (f x) = p x) : (l.map f).countP p = l.countP p := by
  rw [List.countP_map]
  have hpf : p ∘ f = p := funext h
  rw [hpf]

theorem insertRow_tokenAddress (tok : TokenInput) (now : Int) :
    (insertRow tok now).tokenAddress = tok.tokenAddress := rfl

theorem upsert_insert_db (db : DB) (tok : TokenInput) (now : Int)
    (h : findToken db tok.tokenAddress = none) :
    (upsertTokenBoost db tok now).1 = { db with tokens := db.tokens ++ [insertRow tok now] } := by
  unfold upsertTokenBoost
  simp only [h]

theorem upsert_update_db (db : DB) (tok : TokenInput) (now : Int) (t : Token)
    (h : findToken db tok.tokenAddress = some t) :
    (upsertTokenBoost db tok now).1
      = { db with tokens := db.tokens.map (fun x =>
            if x.tokenAddress = tok.tokenAddress then updateRow tok now x else x) } := by
  unfold upsertTokenBoost
  simp only [h]

theorem findToken_upsert_self_insert (db : DB) (tok : TokenInput) (now : Int)
    (h : findToken db tok.tokenAddress = none) :
    findToken (upsertTokenBoost db tok now).1 tok.tokenAddress = some (insertRow tok now) := by
  rw [upsert_insert_db db tok now h]
  unfold findToken at h
  show (db.tokens ++ [insertRow tok now]).find? (fun x => x.tokenAddress = tok.tokenAddress)
    = some (insertRow tok now)
  rw [List.find?_append, h]
  simp [insertRow_tokenAddress]

theorem findToken_upsert_self_update (db : DB) (tok : TokenInput) (now : Int) (t : Token)
    (h : findToken db tok.tokenAddress = some t) :
    findToken (upsertTokenBoost db tok now).1 tok.tokenAddress = some (updateRow tok now t) := by
  rw [upsert_update_db db tok now t h]
  show (db.tokens.map (fun x =>
      if x.tokenAddress = tok.tokenAddress then updateRow tok now x else x)).find?
      (fun x => x.tokenAddress = tok.tokenAddress) = some (updateRow tok now t)
  rw [find_pred_map]
  · unfold findToken at h
    rw [h]
    have hta : t.tokenAddress = tok.tokenAddress := by
      have := List.find?_some h
      simpa using this
    simp [hta]
  · intro x
    by_cases hx : x.tokenAddress = tok.tokenAddress <;> simp [hx, updateRow_tokenAddress]

theorem updateRow_updateRow (tok : TokenInput) (t1 t2 : Int) (t : Token) :
    updateRow tok t2 (updateRow tok t1 t) = { updateRow tok t1 t with boosted := t2 } := rfl

theorem updateRow_insertRow (tok : TokenInput) (t1 t2 : Int) :
    updateRow tok t2 (insertRow tok t1) = { insertRow tok t1 with boosted := t2 } := rfl

/-! ### Vote helper lemmas -/

theorem upsertVote_atMostOne (db : DB) (a u : String) (vote now : Int)
    (h : atMostOneVote db) : atMostOneVote (upsertVote db a u vote now).1 := by
  intro a' u'
  unfold upsertVote
  cases hv : findVote db a u with
  | none =>
      simp only [hv]
      rw [List.countP_append]
      by_cases hmatch : a = a' ∧ u = u'
      · have hz : db.votes.countP (fun v => v.tokenAddress = a' ∧ v.userId = u') = 0 := by
          rw [List.countP_eq_zero]
          intro v hvm
          intro hpv
          have hp' : v.tokenAddress = a' ∧ v.userId = u' := by simpa using hpv
          have : (fun v => decide (v.tokenAddress = a ∧ v.userId = u)) v = true := by
            simp [hp'.1, hp'.2, hmatch.1, hmatch.2]
          have hnone := List.find?_eq_none.mp hv v hvm
          exact hnone this
        rw [hz]
        simp [hmatch.1, hmatch.2]
      · have hz : List.countP (fun (v : Vote) => decide (v.tokenAddress = a' ∧ v.userId = u'))
            [({ tokenAddress := a, userId := u, vote := vote, timestamp := now } : Vote)] = 0 := by
          simp only [List.countP_cons, List.countP_nil]
          have : ¬ (a = a' ∧ u = u') := hmatch
          simp [this]
        rw [hz]
        simpa using h a' u'
  | some w =>
      simp only [hv]
      refine le_trans (le_of_eq (countP_map_eq db.votes _ _ ?_)) (h a' u')
      intro v
      by_cases hc : v.tokenAddress = a ∧ v.userId = u <;> simp [hc]

theorem voteHandler_atMostOne (db : DB) (a : String) (vote : Int) (u : String) (now : Int)
    (h : atMostOneVote db) : atMostOneVote (voteHandler db a vote u now).1 := by
  unfold voteHandler
  by_cases hc : a = "" ∨ (vote ≠ 1 ∧ vote ≠ -1) ∨ u = ""
  · simp only [if_pos hc]
    exact h
  · simp only [if_neg hc]
    cases hg : getUserVote db a u with
    | some v => exact h
    | none => exact upsertVote_atMostOne db a u vote now h

theorem upsertVote_pinOrders (db : DB) (a u : String) (vote now : Int) :
    (upsertVote db a u vote now).1.pinOrders = db.pinOrders := by
  unfold upsertVote
  cases hv : findVote db a u <;> simp [hv]

theorem voteHandler_pinOrders (db : DB) (a : String) (vote : Int) (u : String) (now : Int) :
    (voteHandler db a vote u now).1.pinOrders = db.pinOrders := by
  unfold voteHandler
  by_cases hc : a = "" ∨ (vote ≠ 1 ∧ vote ≠ -1) ∨ u = ""
  · simp only [if_pos hc]
  · simp only [if_neg hc]
    cases hg : getUserVote db a u with
    | some v => rfl
    | none => exact upsertVote_pinOrders db a u vote now

theorem upsertTokenBoost_pinOrders (db : DB) (tok : TokenInput) (now : Int) :
    (upsertTokenBoost db tok now).1.pinOrders = db.pinOrders := by
  unfold upsertTokenBoost
  cases h : findToken db tok.tokenAddress <;> simp [h]

theorem upsertTokenBoost_votes (db : DB) (tok : TokenInput) (now : Int) :
    (upsertTokenBoost db tok now).1.votes = db.votes := by
  unfold upsertTokenBoost
  cases h : findToken db tok.tokenAddress <;> simp [h]

theorem updateTokenPin_votes (env : Env) (db : DB) (a : String) (hours now : Int) :
    (updateTokenPin env db a hours now).1.votes = db.votes := by
  unfold updateTokenPin
  cases env.fresh a with
  | none => rfl
  | some pairs =>
      cases hp : pairs.find? (fun p => p.dexId = dexToTrack) with
      | none => simp [hp]
      | some pair => simp [hp]

theorem processOrder_votes (env : Env) (now : Int)
    (acc : DB × List Event × List StatusChange) (order : PinOrder) :
    (processOrder env now acc order).1.votes = acc.1.votes := by
  unfold processOrder
  by_cases h1 : order.expiresAt < now
  · simp only [if_pos h1]
    rfl
  · simp only [if_neg h1]
    by_cases h2 : verifyPayment env order.paymentAddress order.cost = true
    · simp only [h2, if_true]
      show (updateOrderStatus _ _ _ _).votes = _
      rw [show ∀ d : DB, ∀ i st pa, (updateOrderStatus d i st pa).votes = d.votes from fun _ _ _ _ => rfl]
      exact updateTokenPin_votes env _ order.tokenAddress order.hours now
    · simp only [h2, if_false]
      rfl

theorem serverPollOrder_votes (env : Env) (now : Int)
    (acc : DB × List Event × List StatusChange) (order : PinOrder) :
    (serverPollOrder env now acc order).1.votes = acc.1.votes := by
  unfold serverPollOrder
  by_cases h2 : verifyPayment env order.paymentAddress order.cost = true
  · simp only [h2, if_true, canTokenBePinned]
    exact updateTokenPin_votes env _ order.tokenAddress order.hours now
  · simp only [h2, if_false]
    by_cases h1 : order.expiresAt < now
    · simp only [if_pos h1]
      rfl
    · simp only [if_neg h1]
      rfl

theorem foldl_votes (step : (DB × List Event × List StatusChange) → PinOrder →
      DB × List Event × List StatusChange)
    (hstep : ∀ acc order, (step acc order).1.votes = acc.1.votes) :
    ∀ (orders : List PinOrder) (acc : DB × List Event × List StatusChange),
      ((orders.foldl step acc)).1.votes = acc.1.votes := by
  intro orders
  induction orders with
  | nil => intro acc; rfl
  | cons o os ih =>
      intro acc
      rw [List.foldl_cons, ih, hstep]

theorem processPayments_votes (env : Env) (db : DB) (now : Int) :
    (processPayments env db now).1.votes = db.votes := by
  simp only [processPayments]
  show (checkAndExpirePins _ now).votes = db.votes
  rw [show ∀ d : DB, ∀ m : Int, (checkAndExpirePins d m).votes = d.votes from fun _ _ => rfl]
  exact foldl_votes _ (processOrder_votes env now) (getPendingOrders db now) (db, [], [])

theorem serverPollCycle_votes (env : Env) (db : DB) (now : Int) :
    (serverPollCycle env db now).1.votes = db.votes :=
  foldl_votes _ (serverPollOrder_votes env now) (getPendingOrders db now) (db, [], [])

/-! ### findToken preservation through a poll cycle (claim C2 machinery) -/

theorem processOrder_findToken_ne (env : Env) (now : Int)
    (acc : DB × List Event × List StatusChange) (order : PinOrder) (a : String)
    (hne : ¬ order.tokenAddress = a) :
    findToken (processOrder env now acc order).1 a = findToken acc.1 a := by
  unfold processOrder
  by_cases h1 : order.expiresAt < now
  · simp only [if_pos h1]
    exact findToken_eq_of_tokens_eq _ _ (updateOrderStatus_tokens _ _ _ _) a
  · simp only [if_neg h1]
    by_cases h2 : verifyPayment env order.paymentAddress order.cost = true
    · simp only [h2, if_true]
      rw [findToken_eq_of_tokens_eq _ _ (updateOrderStatus_tokens _ _ _ _) a]
      rw [findToken_updateTokenPin_ne env _ order.tokenAddress order.hours now a
        (fun hh => hne hh.symm)]
      exact findToken_eq_of_tokens_eq _ _ (updateOrderStatus_tokens _ _ _ _) a
    · simp only [h2, if_false]
      rfl

theorem foldProcess_findToken (env : Env) (now : Int) (orders : List PinOrder) :
    ∀ (acc : DB × List Event × List StatusChange) (a : String),
      (∀ o ∈ orders, ¬ o.tokenAddress = a) →
      findToken (orders.foldl (processOrder env now) acc).1 a = findToken acc.1 a := by
  induction orders with
  | nil =>
      intro acc a _
      rfl
  | cons o os ih =>
      intro acc a h
      rw [List.foldl_cons]
      rw [ih _ a (fun p hp => h p (List.mem_cons_of_mem o hp))]
      exact processOrder_findToken_ne env now acc o a (h o (List.mem_cons_self o os))

/-! ### Per-order completion through a poll cycle (claim C1 machinery) -/

theorem updateTokenPin_fresh_none (env : Env) (db : DB) (a : String) (hours now : Int)
    (h : env.fresh a = none) : updateTokenPin env db a hours now = (db, false, []) := by
  unfold updateTokenPin
  rw [h]

theorem updateTokenPin_pair_none (env : Env) (db : DB) (a : String) (hours now : Int)
    (pairs : List Pair) (h : env.fresh a = some pairs)
    (hp : pairs.find? (fun p => p.dexId = dexToTrack) = none) :
    updateTokenPin env db a hours now = (db, false, []) := by
  unfold updateTokenPin
  rw [h]
  simp [hp]

theorem foldProcess_frame (env : Env) (now : Int) :
    ∀ (orders : List PinOrder) (acc : DB × List Event × List StatusChange) (i : Nat),
      i ∉ orders.map PinOrder.id →
      findOrder (orders.foldl (processOrder env now) acc).1 i = findOrder acc.1 i := by
  intro orders
  induction orders with
  | nil =>
      intro acc i _
      rfl
  | cons q os ih =>
      intro acc i hi
      have hi' : ¬ (i = q.id ∨ i ∈ os.map PinOrder.id) := by simpa using hi
      rw [List.foldl_cons]
      rw [ih _ i (fun h => hi' (Or.inr h))]
      exact processOrder_findOrder_ne env now acc q i (fun h => hi' (Or.inl h))

theorem foldProcess_completes (env : Env) (now : Int) :
    ∀ (orders : List PinOrder) (acc : DB × List Event × List StatusChange) (o : PinOrder),
      o ∈ orders →
      (∀ p ∈ orders, findOrder acc.1 p.id = some p) →
      ((orders.map PinOrder.id).Nodup) →
      ¬ o.expiresAt < now →
      verifyPayment env o.paymentAddress o.cost = true →
      ¬ now = 0 →
      findOrder (orders.foldl (processOrder env now) acc).1 o.id
        = some { o with status := OrderStatus.completed, paidAt := none } := by
  intro orders
  induction orders with
  | nil =>
      intro acc o hmem
      cases hmem
  | cons q os ih =>
      intro acc o hmem hin hnd hne hpay hn0
      have hnd2 : q.id ∉ os.map PinOrder.id ∧ (os.map PinOrder.id).Nodup := by
        rw [List.map_cons] at hnd
        exact List.nodup_cons.mp hnd
      rw [List.foldl_cons]
      rcases List.mem_cons.mp hmem with rfl | hos
      · have hacc0 : findOrder acc.1 o.id = some o := hin o (List.mem_cons_self o os)
        have hstep : findOrder (processOrder env now acc o).1 o.id
            = some { o with status := OrderStatus.completed, paidAt := none } := by
          unfold processOrder
          simp only [if_neg hne, hpay, if_true]
          rw [findOrder_updateOrderStatus_self]
          rw [findOrder_eq_of_pinOrders_eq _ _ (updateTokenPin_pinOrders _ _ _ _ _)]
          rw [findOrder_updateOrderStatus_self, hacc0]
          simp [jsOrNull, hn0]
        rw [foldProcess_frame env now os _ o.id hnd2.1]
        exact hstep
      · have hin' : ∀ p ∈ os, findOrder (processOrder env now acc q).1 p.id = some p := by
          intro p hp
          have hid : ¬ p.id = q.id := by
            intro h
            apply hnd2.1
            rw [← h]
            exact List.mem_map_of_mem PinOrder.id hp
          rw [processOrder_findOrder_ne env now acc q p.id hid]
          exact hin p (List.mem_cons_of_mem q hp)
        exact ih _ o hos hin' hnd2.2 hne hpay hn0

theorem processPayments_completes_order (env : Env) (db : DB) (o : PinOrder) (now : Int)
    (hnd : (db.pinOrders.map PinOrder.id).Nodup)
    (ho : o ∈ db.pinOrders)
    (hst : o.status = OrderStatus.pending)
    (hexp : now < o.expiresAt)
    (hnow : 0 < now)
    (hpay : verifyPayment env o.paymentAddress o.cost = true) :
    findOrder (processPayments env db now).1 o.id
      = some { o with status := OrderStatus.completed, paidAt := none } := by
  simp only [processPayments]
  rw [findOrder_checkAndExpirePins]
  rw [foldProcess_completes env now (getPendingOrders db now) (db, [], []) o
    ((mem_getPendingOrders db now o).mpr ⟨ho, hst, hexp⟩)
    (fun p hp => (pendingOrders_mem_spec db now hnd p hp).2)
    (getPendingOrders_ids_nodup db now hnd)
    (by omega) hpay (by omega)]
  simp [paidWindowOver]

/-! ### Sorting lemmas (claim C9 machinery) -/

theorem insertByBoosted_perm (t : Token) (l : List Token) :
    (insertByBoosted t l).Perm (t :: l) := by
  induction l with
  | nil => exact List.Perm.refl _
  | cons x xs ih =>
      unfold insertByBoosted
      by_cases h : x.boosted ≤ t.boosted
      · simp only [if_pos h]
        exact List.Perm.refl _
      · simp only [if_neg h]
        exact (ih.cons x).trans (List.Perm.swap t x xs)

theorem sortByBoostedDesc_perm (l : List Token) : (sortByBoostedDesc l).Perm l := by
  induction l with
  | nil => exact List.Perm.refl _
  | cons x xs ih =>
      unfold sortByBoostedDesc
      exact (insertByBoosted_perm x (sortByBoostedDesc xs)).trans (ih.cons x)

theorem insertByBoosted_sorted (t : Token) (l : List Token)
    (h : boostedDescSorted l) : boostedDescSorted (insertByBoosted t l) := by
  induction l with
  | nil =>
      unfold insertByBoosted boostedDescSorted
      simp
  | cons x xs ih =>
      unfold insertByBoosted
      rcases List.pairwise_cons.mp h with ⟨hx, hxs⟩
      by_cases hc : x.boosted ≤ t.boosted
      · simp only [if_pos hc]
        unfold boostedDescSorted
        rw [List.pairwise_cons]
        constructor
        · intro y hy
          rcases List.mem_cons.mp hy with rfl | hy'
          · exact hc
          · exact le_trans (hx y hy') hc
        · exact h
      · simp only [if_neg hc]
        unfold boostedDescSorted
        rw [List.pairwise_cons]
        constructor
        · intro y hy
          have hy' : y ∈ t :: xs := (insertByBoosted_perm t xs).mem_iff.mp hy
          rcases List.mem_cons.mp hy' with rfl | hy''
          · exact le_of_lt (lt_of_not_le hc)
          · exact hx y hy''
        · exact ih hxs

theorem sortByBoostedDesc_sorted (l : List Token) :
    boostedDescSorted (sortByBoostedDesc l) := by
  induction l with
  | nil =>
      unfold sortByBoostedDesc boostedDescSorted
      simp
  | cons x xs ih =>
      unfold sortByBoostedDesc
      exact insertByBoosted_sorted x (sortByBoostedDesc xs) ih

/-! ### Refund-status reachability machinery (claim C10) -/

theorem noRefund_of_pinOrders_eq (db db' : DB) (h : db'.pinOrders = db.pinOrders)
    (hn : noRefundNeeded db) : noRefundNeeded db' := by
  intro o ho
  rw [h] at ho
  exact hn o ho

theorem noRefund_updateOrderStatus (db : DB) (i : Nat) (st : OrderStatus)
    (pa : Option Int) (hst : st ≠ OrderStatus.refund_needed) (h : noRefundNeeded db) :
    noRefundNeeded (updateOrderStatus db i st pa) := by
  intro o ho
  unfold updateOrderStatus at ho
  rcases List.mem_map.mp ho with ⟨p, hp, rfl⟩
  by_cases hc : p.id = i
  · simp only [if_pos hc]
    exact hst
  · simp only [if_neg hc]
    exact h p hp

theorem noRefund_checkAndExpirePins (db : DB) (now : Int) (h : noRefundNeeded db) :
    noRefundNeeded (checkAndExpirePins db now) := by
  intro o ho
  unfold checkAndExpirePins at ho
  rcases List.mem_map.mp ho with ⟨p, hp, rfl⟩
  by_cases hc : paidWindowOver p now = true
  · simp only [if_pos hc]
    decide
  · simp only [if_neg hc]
    exact h p hp

theorem noRefund_createPinOrder (db : DB) (a : String) (hours : Int) (cost : Rat)
    (userIp addr key : String) (now : Int) (h : noRefundNeeded db) :
    noRefundNeeded (createPinOrder db a hours cost userIp addr key now).1 := by
  intro o ho
  rcases List.mem_append.mp ho with h1 | h1
  · exact h o h1
  · rcases List.mem_singleton.mp h1 with rfl
    intro hc
    exact OrderStatus.noConfusion hc

theorem processOrder_noRefund (env : Env) (now : Int)
    (acc : DB × List Event × List StatusChange) (order : PinOrder)
    (h : noRefundNeeded acc.1) : noRefundNeeded (processOrder env now acc order).1 := by
  unfold processOrder
  by_cases h1 : order.expiresAt < now
  · simp only [if_pos h1]
    exact noRefund_updateOrderStatus _ _ _ _ (by decide) h
  · simp only [if_neg h1]
    by_cases h2 : verifyPayment env order.paymentAddress order.cost = true
    · simp only [h2, if_true]
      apply noRefund_updateOrderStatus _ _ _ _ (by decide)
      apply noRefund_of_pinOrders_eq _ _ (updateTokenPin_pinOrders _ _ _ _ _)
      exact noRefund_updateOrderStatus _ _ _ _ (by decide) h
    · simp only [h2, if_false]
      exact h

theorem serverPollOrder_noRefund (env : Env) (now : Int)
    (acc : DB × List Event × List StatusChange) (order : PinOrder)
    (h : noRefundNeeded acc.1) : noRefundNeeded (serverPollOrder env now acc order).1 := by
  unfold serverPollOrder
  by_cases h2 : verifyPayment env order.paymentAddress order.cost = true
  · simp only [h2, if_true, canTokenBePinned]
    apply noRefund_of_pinOrders_eq _ _ (updateTokenPin_pinOrders _ _ _ _ _)
    exact noRefund_updateOrderStatus _ _ _ _ (by decide) h
  · simp only [h2, if_false]
    by_cases h1 : order.expiresAt < now
    · simp only [if_pos h1]
      exact noRefund_updateOrderStatus _ _ _ _ (by decide) h
    · simp only [if_neg h1]
      exact h

theorem foldl_noRefund (step : (DB × List Event × List StatusChange) → PinOrder →
      DB × List Event × List StatusChange)
    (hstep : ∀ acc order, noRefundNeeded acc.1 → noRefundNeeded (step acc order).1) :
    ∀ (orders : List PinOrder) (acc : DB × List Event × List StatusChange),
      noRefundNeeded acc.1 → noRefundNeeded (orders.foldl step acc).1 := by
  intro orders
  induction orders with
  | nil =>
      intro acc h
      exact h
  | cons o os ih =>
      intro acc h
      rw [List.foldl_cons]
      exact ih _ (hstep acc o h)

theorem processPayments_noRefund (env : Env) (db : DB) (now : Int)
    (h : noRefundNeeded db) : noRefundNeeded (processPayments env db now).1 := by
  simp only [processPayments]
  apply noRefund_checkAndExpirePins
  exact foldl_noRefund _ (processOrder_noRefund env now) (getPendingOrders db now)
    (db, [], []) h

theorem serverPollCycle_noRefund (env : Env) (db : DB) (now : Int)
    (h : noRefundNeeded db) : noRefundNeeded (serverPollCycle env db now).1 :=
  foldl_noRefund _ (serverPollOrder_noRefund env now) (getPendingOrders db now)
    (db, [], []) h

theorem deleteOldTokens_pinOrders (db : DB) (now : Int) :
    (deleteOldTokens db now).1.pinOrders = db.pinOrders := rfl

theorem step_preserves_noRefund (db db' : DB) (h : Step db db')
    (hnr : noRefundNeeded db) : noRefundNeeded db' := by
  cases h with
  | upsertToken db tok now =>
      exact noRefund_of_pinOrders_eq _ _ (upsertTokenBoost_pinOrders db tok now) hnr
  | vote db a v u now =>
      exact noRefund_of_pinOrders_eq _ _ (voteHandler_pinOrders db a v u now) hnr
  | createOrder db a hours cost userIp addr key now =>
      exact noRefund_createPinOrder db a hours cost userIp addr key now hnr
  | poll env db now => exact processPayments_noRefund env db now hnr
  | serverPoll env db now => exact serverPollCycle_noRefund env db now hnr
  | expireSweep db now => exact noRefund_checkAndExpirePins db now hnr
  | pinToken env db a hours now =>
      exact noRefund_of_pinOrders_eq _ _ (updateTokenPin_pinOrders env db a hours now) hnr
  | purge db now =>
      exact noRefund_of_pinOrders_eq _ _ (deleteOldTokens_pinOrders db now) hnr

theorem atMostOne_of_votes_eq (db db' : DB) (h : db'.votes = db.votes)
    (ha : atMostOneVote db) : atMostOneVote db' := by
  intro a u
  unfold atMostOneVote at ha
  rw [show db'.votes = db.votes from h]
  exact ha a u

theorem deleteOldTokens_atMostOne (db : DB) (now : Int) (h : atMostOneVote db) :
    atMostOneVote (deleteOldTokens db now).1 := by
  intro a u
  exact le_trans ((List.filter_sublist _).countP_le _) (h a u)

theorem step_preserves_atMostOne (db db' : DB) (h : Step db db')
    (ha : atMostOneVote db) : atMostOneVote db' := by
  cases h with
  | upsertToken db tok now =>
      exact atMostOne_of_votes_eq _ _ (upsertTokenBoost_votes db tok now) ha
  | vote db a v u now => exact voteHandler_atMostOne db a v u now ha
  | createOrder db a hours cost userIp addr key now =>
      exact atMostOne_of_votes_eq _ _ rfl ha
  | poll env db now =>
      exact atMostOne_of_votes_eq _ _ (processPayments_votes env db now) ha
  | serverPoll env db now =>
      exact atMostOne_of_votes_eq _ _ (serverPollCycle_votes env db now) ha
  | expireSweep db now => exact atMostOne_of_votes_eq _ _ rfl ha
  | pinToken env db a hours now =>
      exact atMostOne_of_votes_eq _ _ (updateTokenPin_votes env db a hours now) ha
  | purge db now => exact deleteOldTokens_atMostOne db now ha

/-! ## Claim theorems -/

/-- C2: replaying a payment-poll cycle against a token all of whose orders
are already completed leaves that token row (totalAmount, amount and
pinnedUntil included) unchanged: the pin effect is applied at most once. -/
theorem C2_at_most_once_pin (env : Env) (db : DB) (now : Int) (a : String)
    (h : ∀ o ∈ db.pinOrders, o.tokenAddress = a → o.status = OrderStatus.completed) :
    findToken (processPayments env db now).1 a = findToken db a := by
  simp only [processPayments]
  rw [findToken_eq_of_tokens_eq _ _ (checkAndExpirePins_tokens _ _) a]
  apply foldProcess_findToken
  intro o ho hoa
  have hmem := (mem_getPendingOrders db now o).mp ho
  have hcomp := h o hmem.1 hoa
  rw [hcomp] at hmem
  exact OrderStatus.noConfusion hmem.2.1

/-- Witness for C2 at a concrete store: one completed order on the token,
a poll cycle leaves the token row unchanged. -/
theorem C2_at_most_once_pin_witness :
    findToken (processPayments emptyEnv dbC2 99).1 "addrpump"
      = findToken dbC2 "addrpump" := by
  apply C2_at_most_once_pin
  intro o ho _
  rcases List.mem_singleton.mp ho with rfl
  rfl

/-- C3: a successful updateTokenPin of H hours on a token whose stored
pinnedUntil is T yields pinnedUntil = T + H*3600000 when now < T and
now + H*3600000 otherwise; for a nonnegative duration the value never
moves backwards, and the reconciliation upsert never touches the
pinnedUntil of an existing row. -/
theorem C3_pin_extension (env : Env) (db : DB) (a : String) (hours now T : Int)
    (t : Token) (ht : findToken db a = some t) (hT : t.pinnedUntil = some T)
    (hres : (updateTokenPin env db a hours now).2.1 = true) :
    (∃ t', findToken (updateTokenPin env db a hours now).1 a = some t' ∧
      t'.pinnedUntil = some ((if now < T then T else now) + hours * 60 * 60 * 1000) ∧
      (0 ≤ hours → T ≤ (if now < T then T else now) + hours * 60 * 60 * 1000)) ∧
    (∀ (db2 : DB) (tok : TokenInput) (m : Int) (u : Token),
      findToken db2 tok.tokenAddress = some u →
      ∃ u', findToken (upsertTokenBoost db2 tok m).1 tok.tokenAddress = some u' ∧
        u'.pinnedUntil = u.pinnedUntil) := by
  constructor
  · rcases updateTokenPin_true_inv env db a hours now hres with ⟨pairs, pair, hf, hp⟩
    have hspec := (updateTokenPin_spec env db a hours now t pairs pair ht hf hp).2
    refine ⟨_, hspec, ?_, ?_⟩
    · show some ((if t.pinnedUntil.getD 0 > now then t.pinnedUntil.getD 0 else now)
        + hours * 60 * 60 * 1000) = _
      rw [hT]
      rfl
    · intro hh
      by_cases hcase : now < T
      · simp only [if_pos hcase]
        have hmul : (0 : Int) ≤ hours * 60 * 60 * 1000 := by
          have h60 : (0 : Int) ≤ 60 := by norm_num
          have h1000 : (0 : Int) ≤ 1000 := by norm_num
          exact mul_nonneg (mul_nonneg (mul_nonneg hh h60) h60) h1000
        omega
      · simp only [if_neg hcase]
        have hmul : (0 : Int) ≤ hours * 60 * 60 * 1000 := by
          have h60 : (0 : Int) ≤ 60 := by norm_num
          have h1000 : (0 : Int) ≤ 1000 := by norm_num
          exact mul_nonneg (mul_nonneg (mul_nonneg hh h60) h60) h1000
        omega
  · intro db2 tok m u hu
    exact ⟨updateRow tok m u, findToken_upsert_self_update db2 tok m u hu, rfl⟩

/-- Witness for C3 at a concrete store: token pinned until 100, a 1-hour
pin applied at time 50 moves pinnedUntil to 100 + 3600000. -/
theorem C3_pin_extension_witness :
    (∃ t', findToken (updateTokenPin paidEnv dbC3 "addrpump" 1 50).1 "addrpump" = some t' ∧
      t'.pinnedUntil = some ((if (50 : Int) < 100 then (100 : Int) else 50) + 1 * 60 * 60 * 1000) ∧
      ((0 : Int) ≤ 1 → (100 : Int) ≤ (if (50 : Int) < 100 then (100 : Int) else 50) + 1 * 60 * 60 * 1000)) ∧
    (∀ (db2 : DB) (tok : TokenInput) (m : Int) (u : Token),
      findToken db2 tok.tokenAddress = some u →
      ∃ u', findToken (upsertTokenBoost db2 tok m).1 tok.tokenAddress = some u' ∧
        u'.pinnedUntil = u.pinnedUntil) :=
  C3_pin_extension paidEnv dbC3 "addrpump" 1 50 100 tokC3 rfl rfl rfl

/-- C9 counterexample: with a pinned token boosted at 1 and an unpinned
token boosted at 2, selectAllTokens puts the unpinned token first, so the
endpoint output is not sorted by pin status first. -/
theorem C9_counterexample :
    ¬ pinnedFirstSorted 10 (selectAllTokens dbC9) := by
  intro h
  have hsel : selectAllTokens dbC9 = [tokC9Plain, tokC9Pinned] := rfl
  rw [hsel] at h
  unfold pinnedFirstSorted at h
  have h1 := (List.pairwise_cons.mp h).1 tokC9Pinned (List.mem_singleton.mpr rfl)
  have h2 : pinnedActive tokC9Pinned 10 = true := rfl
  have h3 := h1 h2
  exact absurd h3 (by decide)

/-- C9 amended: GET /api/tokens returns all token rows sorted by the
boosted timestamp descending (pin status plays no role in the ordering). -/
theorem C9_sorted_by_boosted (db : DB) :
    boostedDescSorted (selectAllTokens db) ∧ (selectAllTokens db).Perm db.tokens :=
  ⟨sortByBoostedDesc_sorted db.tokens, sortByBoostedDesc_perm db.tokens⟩

/-- C10: canTokenBePinned returns true unconditionally, and consequently no
reachable state of the system step relation contains an order in status
refund_needed. -/
theorem C10_refund_unreachable :
    canTokenBePinned = true ∧
    ∀ db : DB, Relation.ReflTransGen Step initDB db → noRefundNeeded db := by
  refine ⟨rfl, ?_⟩
  intro db h
  induction h with
  | refl =>
      intro o ho
      cases ho
  | tail hab hbc ih => exact step_preserves_noRefund _ _ hbc ih

/-- Witness for C10: the initial store is reachable and refund-free. -/
theorem C10_refund_unreachable_witness : noRefundNeeded initDB :=
  C10_refund_unreachable.2 initDB Relation.ReflTransGen.refl

/-- C6 counterexample: a token stored with totalAmount 105 receives a
reconciliation upsert reporting totalAmount 50; the stored value drops to
50 < 105, so totalAmount is not only-increasing. -/
theorem C6_counterexample :
    (findToken dbC6 "addrpump").map Token.totalAmount = some 105 ∧
    (findToken (upsertTokenBoost dbC6 inputC6 7).1 "addrpump").map Token.totalAmount
      = some 50 ∧
    (50 : Int) < 105 := by
  refine ⟨rfl, rfl, by norm_num⟩

/-- C6 amended: a successful pin application always increments the stored
totalAmount by one (never decreases it), while the reconciliation upsert
overwrites totalAmount with the supplied value, so the stored value is
non-decreasing only when the supplied value is at least the stored one. -/
theorem C6_totalAmount_monotonic :
    (∀ (env : Env) (db : DB) (a : String) (hours now : Int) (t : Token),
      findToken db a = some t → (updateTokenPin env db a hours now).2.1 = true →
      ∃ t', findToken (updateTokenPin env db a hours now).1 a = some t' ∧
        t'.totalAmount = t.totalAmount + 1 ∧ t.totalAmount ≤ t'.totalAmount) ∧
    (∀ (db : DB) (tok : TokenInput) (now : Int) (t : Token),
      findToken db tok.tokenAddress = some t → t.totalAmount ≤ tok.totalAmount →
      ∃ t', findToken (upsertTokenBoost db tok now).1 tok.tokenAddress = some t' ∧
        t'.totalAmount = tok.totalAmount ∧ t.totalAmount ≤ t'.totalAmount) := by
  constructor
  · intro env db a hours now t ht hres
    rcases updateTokenPin_true_inv env db a hours now hres with ⟨pairs, pair, hf, hp⟩
    have hspec := (updateTokenPin_spec env db a hours now t pairs pair ht hf hp).2
    refine ⟨_, hspec, rfl, ?_⟩
    show t.totalAmount ≤ t.totalAmount + 1
    omega
  · intro db tok now t ht hle
    exact ⟨updateRow tok now t, findToken_upsert_self_update db tok now t ht, rfl, hle⟩

/-- Witness for C6 amended at a concrete store: the pin bumps 105 to 106,
and an upsert with the larger input 200 stores 200. -/
theorem C6_totalAmount_monotonic_witness :
    (∃ t', findToken (updateTokenPin paidEnv dbC6 "addrpump" 1 50).1 "addrpump" = some t' ∧
      t'.totalAmount = tokC6.totalAmount + 1 ∧ tokC6.totalAmount ≤ t'.totalAmount) ∧
    (∃ t', findToken (upsertTokenBoost dbC6 inputC6Up 7).1 "addrpump" = some t' ∧
      t'.totalAmount = inputC6Up.totalAmount ∧ tokC6.totalAmount ≤ t'.totalAmount) :=
  ⟨C6_totalAmount_monotonic.1 paidEnv dbC6 "addrpump" 1 50 tokC6 rfl rfl,
   C6_totalAmount_monotonic.2 dbC6 inputC6Up 7 tokC6 rfl (by norm_num [tokC6, inputC6Up, baseToken, baseInput])⟩

/-- C7 counterexample: upserting the same record at times 1 and then 2
leaves a row that differs from the single-application row: the boosted
column is refreshed to the second application time, so the rows are not
identical (dateAdded, however, stays at 1). -/
theorem C7_counterexample :
    (findToken (upsertTokenBoost initDB baseInput 1).1 "addrpump").map Token.boosted
      = some 1 ∧
    (findToken (upsertTokenBoost (upsertTokenBoost initDB baseInput 1).1 baseInput 2).1
        "addrpump").map Token.boosted = some 2 ∧
    (findToken (upsertTokenBoost (upsertTokenBoost initDB baseInput 1).1 baseInput 2).1
        "addrpump").map Token.dateAdded = some 1 ∧
    findToken (upsertTokenBoost (upsertTokenBoost initDB baseInput 1).1 baseInput 2).1
        "addrpump"
      ≠ findToken (upsertTokenBoost initDB baseInput 1).1 "addrpump" := by
  refine ⟨rfl, rfl, rfl, ?_⟩
  intro h
  have hb := congrArg (fun x => Option.map Token.boosted x) h
  simp only [show (findToken (upsertTokenBoost (upsertTokenBoost initDB baseInput 1).1
      baseInput 2).1 "addrpump").map Token.boosted = some 2 from rfl,
    show (findToken (upsertTokenBoost initDB baseInput 1).1 "addrpump").map Token.boosted
      = some 1 from rfl] at hb
  exact absurd hb (by norm_num)

/-- C7 amended: applying the same normalized record twice leaves the stored
row identical to applying it once except that the boosted column is set to
the second application time; dateAdded and pinnedUntil are unchanged on the
second application. -/
theorem C7_upsert_idempotent_mod_boosted (db : DB) (tok : TokenInput) (t1 t2 : Int) :
    ∃ u, findToken (upsertTokenBoost db tok t1).1 tok.tokenAddress = some u ∧
      findToken (upsertTokenBoost (upsertTokenBoost db tok t1).1 tok t2).1 tok.tokenAddress
        = some { u with boosted := t2 } ∧
      ({ u with boosted := t2 } : Token).dateAdded = u.dateAdded ∧
      ({ u with boosted := t2 } : Token).pinnedUntil = u.pinnedUntil := by
  cases h : findToken db tok.tokenAddress with
  | none =>
      have h1 := findToken_upsert_self_insert db tok t1 h
      refine ⟨insertRow tok t1, h1, ?_, rfl, rfl⟩
      have h2 := findToken_upsert_self_update (upsertTokenBoost db tok t1).1 tok t2
        (insertRow tok t1) h1
      rw [h2, updateRow_insertRow]
  | some t =>
      have h1 := findToken_upsert_self_update db tok t1 t h
      refine ⟨updateRow tok t1 t, h1, ?_, rfl, rfl⟩
      have h2 := findToken_upsert_self_update (upsertTokenBoost db tok t1).1 tok t2
        (updateRow tok t1 t) h1
      rw [h2, updateRow_updateRow]

/-- C8: in every reachable store each (tokenAddress, voterId) pair has at
most one vote row, and a repeated vote request from the same voter is
rejected with the already-voted error, leaving the store untouched. -/
theorem C8_one_vote_per_voter :
    (∀ db : DB, Relation.ReflTransGen Step initDB db → atMostOneVote db) ∧
    (∀ (db : DB) (a : String) (vote : Int) (u : String) (now v : Int),
      a ≠ "" → u ≠ "" → (vote = 1 ∨ vote = -1) →
      getUserVote db a u = some v →
      voteHandler db a vote u now = (db, VoteResult.alreadyVoted, [])) := by
  constructor
  · intro db h
    induction h with
    | refl =>
        intro a u
        exact Nat.zero_le 1
    | tail hab hbc ih => exact step_preserves_atMostOne _ _ hbc ih
  · intro db a vote u now v ha hu hv h
    unfold voteHandler
    have hcond : ¬ (a = "" ∨ (vote ≠ 1 ∧ vote ≠ -1) ∨ u = "") := by
      rcases hv with rfl | rfl <;> simp [ha, hu]
    rw [if_neg hcond]
    simp [h]

/-- Witness for C8: the initial store satisfies the invariant, and a second
vote on the concrete store with one recorded vote is rejected unchanged. -/
theorem C8_one_vote_per_voter_witness :
    atMostOneVote initDB ∧
    voteHandler dbC8 "addrpump" (-1) "user1" 99 = (dbC8, VoteResult.alreadyVoted, []) :=
  ⟨C8_one_vote_per_voter.1 initDB Relation.ReflTransGen.refl,
   C8_one_vote_per_voter.2 dbC8 "addrpump" (-1) "user1" 99 1
     (by decide) (by decide) (by norm_num) rfl⟩

/-- C4 counterexample: an order in status paid (paidAt 2, 1 hour) is moved
to expired by the poll cycle once its pin window has elapsed, via the
checkAndExpirePins sweep: the paid-to-expired transition does happen. -/
theorem C4_counterexample :
    (findOrder dbC4 1).map PinOrder.status = some OrderStatus.paid ∧
    (findOrder (processPayments emptyEnv dbC4 4000000).1 1).map PinOrder.status
      = some OrderStatus.expired :=
  ⟨rfl, rfl⟩

/-- C4 amended: every status change a payment-poll cycle performs is one of
pending to paid, pending to expired, paid to completed, or paid to expired
(the last only through the pin-expiry sweep over paid orders whose pin
window elapsed), and an order already in a terminal state (completed,
expired, refund_needed) is never modified by either poll cycle. -/
theorem C4_poller_transitions (env : Env) (db : DB) (now : Int)
    (hnd : (db.pinOrders.map PinOrder.id).Nodup) :
    (∀ c ∈ (processPayments env db now).2.2, allowedChange c.oldStatus c.newStatus) ∧
    (∀ c ∈ (serverPollCycle env db now).2.2, allowedChange c.oldStatus c.newStatus) ∧
    (∀ o ∈ db.pinOrders, terminalStatus o.status →
      findOrder (processPayments env db now).1 o.id = some o ∧
      findOrder (serverPollCycle env db now).1 o.id = some o) := by
  refine ⟨processPayments_changes_allowed env db now hnd,
          serverPollCycle_changes_allowed env db now hnd, ?_⟩
  intro o ho hterm
  have hskip : o.status ≠ OrderStatus.pending ∨ ¬ now < o.expiresAt := by
    left
    rcases hterm with h | h | h <;> rw [h] <;> decide
  have hnpaid : o.status ≠ OrderStatus.paid := by
    rcases hterm with h | h | h <;> rw [h] <;> decide
  exact ⟨processPayments_preserves_order env db now hnd o ho hskip hnpaid,
         serverPollCycle_preserves_order env db now hnd o ho hskip⟩

/-- Witness for C4 amended at the concrete one-order store. -/
theorem C4_poller_transitions_witness :
    (∀ c ∈ (processPayments emptyEnv dbC4 99).2.2, allowedChange c.oldStatus c.newStatus) ∧
    (∀ c ∈ (serverPollCycle emptyEnv dbC4 99).2.2, allowedChange c.oldStatus c.newStatus) ∧
    (∀ o ∈ dbC4.pinOrders, terminalStatus o.status →
      findOrder (processPayments emptyEnv dbC4 99).1 o.id = some o ∧
      findOrder (serverPollCycle emptyEnv dbC4 99).1 o.id = some o) :=
  C4_poller_transitions emptyEnv dbC4 99 (by decide)

/-- C5 counterexample: a pending order whose expiresAt (5) already lies in
the past at poll time (10) is filtered out by getPendingOrders and the poll
cycle leaves it pending, not expired. -/
theorem C5_counterexample :
    (findOrder (processPayments emptyEnv dbC5 10).1 1).map PinOrder.status
      = some OrderStatus.pending ∧
    OrderStatus.pending ≠ OrderStatus.expired :=
  ⟨rfl, by decide⟩

/-- C5 amended: a pending order whose expiresAt lies in the past at the
start of a payment-poll cycle is not selected by getPendingOrders and is
left completely unchanged by that cycle (it stays pending). -/
theorem C5_expired_pending_skipped (env : Env) (db : DB) (now : Int) (o : PinOrder)
    (hnd : (db.pinOrders.map PinOrder.id).Nodup)
    (ho : o ∈ db.pinOrders) (hst : o.status = OrderStatus.pending)
    (hexp : o.expiresAt < now) :
    findOrder (processPayments env db now).1 o.id = some o ∧
    o ∉ getPendingOrders db now := by
  have hskip : o.status ≠ OrderStatus.pending ∨ ¬ now < o.expiresAt := Or.inr (by omega)
  have hnpaid : o.status ≠ OrderStatus.paid := by
    rw [hst]
    decide
  refine ⟨processPayments_preserves_order env db now hnd o ho hskip hnpaid, ?_⟩
  intro hmem
  have h := (mem_getPendingOrders db now o).mp hmem
  omega

/-- Witness for C5 amended at the concrete one-order store. -/
theorem C5_expired_pending_skipped_witness :
    findOrder (processPayments emptyEnv dbC5 10).1 orderC5.id = some orderC5 ∧
    orderC5 ∉ getPendingOrders dbC5 10 :=
  C5_expired_pending_skipped emptyEnv dbC5 10 orderC5 (by decide)
    (List.mem_singleton.mpr rfl) rfl (by norm_num [orderC5, baseOrder])

/-- C1 counterexample: with the scenario balance 0.5005 (verification
succeeds) but a failing detail fetch, one poll cycle still completes the
order and broadcasts PIN_UPDATE exactly once, yet the token row is left
bit-for-bit unchanged: no pinnedUntil extension, no amount or totalAmount
increment — the claimed pin effect does not happen. -/
theorem C1_counterexample :
    verifyPayment failEnv baseOrder.paymentAddress baseOrder.cost = true ∧
    (findOrder (processPayments failEnv dbC1 10).1 1).map PinOrder.status
      = some OrderStatus.completed ∧
    ((processPayments failEnv dbC1 10).2.1).countP isPinUpdateEvent = 1 ∧
    findToken (processPayments failEnv dbC1 10).1 "addrpump" = some baseToken ∧
    baseToken.pinnedUntil = none ∧
    baseToken.totalAmount = 0 ∧
    baseToken.amount = 0 := by
  have hpay : verifyPayment failEnv baseOrder.paymentAddress baseOrder.cost = true := by
    unfold verifyPayment
    rw [decide_eq_true_eq, abs_lt]
    constructor <;> norm_num [failEnv, baseOrder]
  have hne1 : ¬ baseOrder.expiresAt < (10 : Int) := by decide
  refine ⟨hpay, ?_, ?_, ?_, rfl, rfl, rfl⟩
  · simp only [processPayments]
    rw [show getPendingOrders dbC1 10 = [baseOrder] from rfl,
      List.foldl_cons, List.foldl_nil]
    unfold processOrder
    simp only [if_neg hne1, hpay, if_true]
    rfl
  · simp only [processPayments]
    rw [show getPendingOrders dbC1 10 = [baseOrder] from rfl,
      List.foldl_cons, List.foldl_nil]
    unfold processOrder
    simp only [if_neg hne1, hpay, if_true]
    rfl
  · simp only [processPayments]
    rw [show getPendingOrders dbC1 10 = [baseOrder] from rfl,
      List.foldl_cons, List.foldl_nil]
    unfold processOrder
    simp only [if_neg hne1, hpay, if_true]
    rfl

/-- C1 amended: a pending, unexpired order whose balance verification
succeeds is driven pending -> paid (recording paidAt = now) -> completed by
one processPayments cycle, in every environment; on a store holding exactly
that order, the cycle logs precisely the pending-to-paid and
paid-to-completed transitions and broadcasts exactly one PIN_UPDATE
envelope whether or not the pin can be applied, and the pin effect on the
token (pinnedUntil extended from max(now, stored), amount and totalAmount
incremented) happens precisely when the detail fetch returns pair data
containing the tracked DEX pair — on a failed fetch or a missing pair the
token row is left unchanged even though the order completes and the
notification is sent. -/
theorem C1_pin_payment_cycle (env : Env) (db : DB) (o : PinOrder) (now : Int)
    (hnd : (db.pinOrders.map PinOrder.id).Nodup)
    (ho : o ∈ db.pinOrders)
    (hst : o.status = OrderStatus.pending)
    (hexp : now < o.expiresAt)
    (hnow : 0 < now)
    (hpay : verifyPayment env o.paymentAddress o.cost = true) :
    findOrder (processPayments env db now).1 o.id
      = some { o with status := OrderStatus.completed, paidAt := none } ∧
    (db.pinOrders = [o] →
      (processPayments env db now).2.2 =
        [{ orderId := o.id, oldStatus := some OrderStatus.pending,
           newStatus := OrderStatus.paid, newPaidAt := some now },
         { orderId := o.id, oldStatus := some OrderStatus.paid,
           newStatus := OrderStatus.completed, newPaidAt := none }] ∧
      ((processPayments env db now).2.1).countP isPinUpdateEvent = 1 ∧
      (∀ t, findToken db o.tokenAddress = some t →
        (∀ pairs pair, env.fresh o.tokenAddress = some pairs →
          pairs.find? (fun p => p.dexId = dexToTrack) = some pair →
          ∃ t', findToken (processPayments env db now).1 o.tokenAddress = some t' ∧
            t'.amount = t.amount + 1 ∧
            t'.totalAmount = t.totalAmount + 1 ∧
            t'.pinnedUntil = some ((if t.pinnedUntil.getD 0 > now
                then t.pinnedUntil.getD 0 else now) + o.hours * 60 * 60 * 1000) ∧
            (0 ≤ o.hours → t.pinnedUntil.getD 0
              ≤ (if t.pinnedUntil.getD 0 > now then t.pinnedUntil.getD 0 else now)
                + o.hours * 60 * 60 * 1000)) ∧
        (env.fresh o.tokenAddress = none →
          findToken (processPayments env db now).1 o.tokenAddress = some t) ∧
        (∀ pairs, env.fresh o.tokenAddress = some pairs →
          pairs.find? (fun p => p.dexId = dexToTrack) = none →
          findToken (processPayments env db now).1 o.tokenAddress = some t))) := by
  have hn0 : ¬ now = 0 := by omega
  have hne1 : ¬ o.expiresAt < now := by omega
  refine ⟨processPayments_completes_order env db o now hnd ho hst hexp hnow hpay, ?_⟩
  intro horders
  have hpend : getPendingOrders db now = [o] := by
    unfold getPendingOrders
    rw [horders]
    simp [hst, hexp]
  have hdbord : findOrder db o.id = some o := by
    unfold findOrder
    rw [horders]
    simp
  have holdst : orderStatusOf db o.id = some OrderStatus.pending := by
    unfold orderStatusOf
    rw [hdbord]
    simp [hst]
  have h1 : findOrder (updateOrderStatus db o.id OrderStatus.paid (some now)) o.id
      = some { o with status := OrderStatus.paid, paidAt := some now } := by
    rw [findOrder_updateOrderStatus_self, hdbord]
    simp [jsOrNull, hn0]
  have h2 : findOrder (updateTokenPin env
        (updateOrderStatus db o.id OrderStatus.paid (some now))
        o.tokenAddress o.hours now).1 o.id
      = some { o with status := OrderStatus.paid, paidAt := some now } := by
    rw [findOrder_eq_of_pinOrders_eq _ _ (updateTokenPin_pinOrders _ _ _ _ _)]
    exact h1
  have hmid : orderStatusOf (updateTokenPin env
        (updateOrderStatus db o.id OrderStatus.paid (some now))
        o.tokenAddress o.hours now).1 o.id = some OrderStatus.paid := by
    unfold orderStatusOf
    rw [h2]
    rfl
  have h3 : findOrder (updateOrderStatus (updateTokenPin env
        (updateOrderStatus db o.id OrderStatus.paid (some now))
        o.tokenAddress o.hours now).1 o.id OrderStatus.completed none) o.id
      = some { o with status := OrderStatus.completed, paidAt := none } := by
    rw [findOrder_updateOrderStatus_self, h2]
    rfl
  have hp3 : (updateOrderStatus (updateTokenPin env
        (updateOrderStatus db o.id OrderStatus.paid (some now))
        o.tokenAddress o.hours now).1 o.id OrderStatus.completed none).pinOrders
      = [{ o with status := OrderStatus.completed, paidAt := none }] := by
    rw [updateOrderStatus_pinOrders, updateTokenPin_pinOrders,
      updateOrderStatus_pinOrders, horders]
    simp [jsOrNull]
  have hsweep : expireSweepLog (updateOrderStatus (updateTokenPin env
        (updateOrderStatus db o.id OrderStatus.paid (some now))
        o.tokenAddress o.hours now).1 o.id OrderStatus.completed none) now = [] := by
    unfold expireSweepLog
    rw [hp3]
    simp [paidWindowOver]
  refine ⟨?_, ?_, ?_⟩
  · simp only [processPayments]
    rw [hpend, List.foldl_cons, List.foldl_nil]
    unfold processOrder
    simp only [if_neg hne1, hpay, if_true]
    rw [hsweep, holdst, hmid]
    simp [jsOrNull, hn0]
  · simp only [processPayments]
    rw [hpend, List.foldl_cons, List.foldl_nil]
    unfold processOrder
    simp only [if_neg hne1, hpay, if_true]
    rw [List.countP_append, List.countP_append]
    rw [updateTokenPin_no_pinUpdate]
    rfl
  · intro t ht
    have htok1 : findToken (updateOrderStatus db o.id OrderStatus.paid (some now))
        o.tokenAddress = some t := by
      rw [findToken_eq_of_tokens_eq _ _ (updateOrderStatus_tokens _ _ _ _)]
      exact ht
    refine ⟨?_, ?_, ?_⟩
    · intro pairs pair hfresh hpair
      have hspec := (updateTokenPin_spec env
        (updateOrderStatus db o.id OrderStatus.paid (some now))
        o.tokenAddress o.hours now t pairs pair htok1 hfresh hpair).2
      simp only [processPayments]
      rw [hpend, List.foldl_cons, List.foldl_nil]
      unfold processOrder
      simp only [if_neg hne1, hpay, if_true]
      refine ⟨applyPinUpdate t now
        ((if t.pinnedUntil.getD 0 > now then t.pinnedUntil.getD 0 else now)
          + o.hours * 60 * 60 * 1000) pair, ?_, rfl, rfl, rfl, ?_⟩
      · rw [findToken_eq_of_tokens_eq _ _ (checkAndExpirePins_tokens _ _)]
        rw [findToken_eq_of_tokens_eq _ _ (updateOrderStatus_tokens _ _ _ _)]
        exact hspec
      · intro hhours
        have hmul : (0 : Int) ≤ o.hours * 60 * 60 * 1000 := by
          have h60 : (0 : Int) ≤ 60 := by norm_num
          have h1000 : (0 : Int) ≤ 1000 := by norm_num
          exact mul_nonneg (mul_nonneg (mul_nonneg hhours h60) h60) h1000
        by_cases hcase : t.pinnedUntil.getD 0 > now
        · simp only [if_pos hcase]
          omega
        · simp only [if_neg hcase]
          omega
    · intro hfresh
      have hzero : updateTokenPin env
          (updateOrderStatus db o.id OrderStatus.paid (some now))
          o.tokenAddress o.hours now
          = (updateOrderStatus db o.id OrderStatus.paid (some now), false, []) :=
        updateTokenPin_fresh_none env _ o.tokenAddress o.hours now hfresh
      simp only [processPayments]
      rw [hpend, List.foldl_cons, List.foldl_nil]
      unfold processOrder
      simp only [if_neg hne1, hpay, if_true]
      rw [findToken_eq_of_tokens_eq _ _ (checkAndExpirePins_tokens _ _)]
      rw [findToken_eq_of_tokens_eq _ _ (updateOrderStatus_tokens _ _ _ _)]
      rw [hzero]
      exact htok1
    · intro pairs hfresh hpair
      have hzero : updateTokenPin env
          (updateOrderStatus db o.id OrderStatus.paid (some now))
          o.tokenAddress o.hours now
          = (updateOrderStatus db o.id OrderStatus.paid (some now), false, []) :=
        updateTokenPin_pair_none env _ o.tokenAddress o.hours now pairs hfresh hpair
      simp only [processPayments]
      rw [hpend, List.foldl_cons, List.foldl_nil]
      unfold processOrder
      simp only [if_neg hne1, hpay, if_true]
      rw [findToken_eq_of_tokens_eq _ _ (checkAndExpirePins_tokens _ _)]
      rw [findToken_eq_of_tokens_eq _ _ (updateOrderStatus_tokens _ _ _ _)]
      rw [hzero]
      exact htok1

/-- Witness for C1 amended at the spec scenario: cost 0.5, observed balance
0.5005 (within the 0.001 tolerance), 1-hour pin, poll at time 10, fetch
serving one raydium pair. -/
theorem C1_pin_payment_cycle_witness :
    findOrder (processPayments paidEnv dbC1 10).1 baseOrder.id
      = some { baseOrder with status := OrderStatus.completed, paidAt := none } ∧
    ((processPayments paidEnv dbC1 10).2.1).countP isPinUpdateEvent = 1 ∧
    (∃ t', findToken (processPayments paidEnv dbC1 10).1 baseOrder.tokenAddress = some t' ∧
      t'.amount = baseToken.amount + 1 ∧
      t'.totalAmount = baseToken.totalAmount + 1 ∧
      t'.pinnedUntil = some ((if baseToken.pinnedUntil.getD 0 > 10
          then baseToken.pinnedUntil.getD 0 else 10) + baseOrder.hours * 60 * 60 * 1000) ∧
      ((0 : Int) ≤ baseOrder.hours → baseToken.pinnedUntil.getD 0
        ≤ (if baseToken.pinnedUntil.getD 0 > 10 then baseToken.pinnedUntil.getD 0 else 10)
          + baseOrder.hours * 60 * 60 * 1000)) := by
  have h := C1_pin_payment_cycle paidEnv dbC1 baseOrder 10 (by decide)
    (List.mem_singleton.mpr rfl) rfl (by decide) (by decide)
    (by
      unfold verifyPayment
      rw [decide_eq_true_eq, abs_lt]
      constructor <;> norm_num [paidEnv, baseOrder])
  have h2 := h.2 rfl
  exact ⟨h.1, h2.2.1, (h2.2.2 baseToken rfl).1 [basePair] basePair rfl rfl⟩

end Dexboost
